import Mathlib

/-!
Verification of the core of the `ur` repository (Royal Game of Ur engine).

The board/state model, move generator and the reversible move applier are a
shallow embedding of `src/optimized_game.rs`; the search-facade, heuristic and
budget-splitting definitions embed the relevant parts of `src/ai.rs` and
`src/ai_helpers.rs`.  Machine integers (`u64`, `u8`) are modelled as `Nat`
with the source's bit manipulations written out explicitly; `f64` scores are
idealized as exact rationals `ℚ` (all facts proved about them concern only
the comparison / tie-break structure or values on which `f64` arithmetic is
exact).
-/

set_option maxHeartbeats 1600000

namespace Ur

/-- Player enumeration (`FastPlayer` in `optimized_game.rs`): `One = 0`, `Two = 1`. -/
inductive FastPlayer where
  | One
  | Two
deriving DecidableEq, Repr

/-- `FastPlayer::opposite`. -/
def FastPlayer.opposite : FastPlayer → FastPlayer
  | .One => .Two
  | .Two => .One

instance instDecidableForallFastPlayer (p : FastPlayer → Prop) [DecidablePred p] :
    Decidable (∀ pl, p pl) :=
  decidable_of_iff (p FastPlayer.One ∧ p FastPlayer.Two)
    ⟨fun h pl => match pl with | .One => h.1 | .Two => h.2, fun h => ⟨h .One, h .Two⟩⟩

/-- Bit-packed game state (`FastGameState`).
`occupied_squares` is the `u64` bitboard (bits 0–19 Player 1, bits 20–39 Player 2);
`piece_positions` is the `u64` holding 14 four-bit position codes
(`0` = off-board, `1..14` = on-board at path index code−1, `15` = finished);
`scores_and_turn` is the `u8` with bits 0–2 = P1 score, 3–5 = P2 score, 6 = turn. -/
structure FastGameState where
  occupied_squares : Nat
  piece_positions : Nat
  scores_and_turn : Nat
deriving DecidableEq, Repr

/-- Undo record (`MoveInfo`). -/
structure MoveInfo where
  piece_idx : Nat
  from_pos : Nat
  to_pos : Nat
  captured_piece : Option Nat
  extra_turn : Bool
deriving DecidableEq, Repr

/-- The two players' private paths (`FastGameState::PATHS`). -/
def PATHS : FastPlayer → List Nat
  | .One => [3, 2, 1, 0, 6, 7, 8, 9, 10, 11, 12, 13, 5, 4]
  | .Two => [17, 16, 15, 14, 6, 7, 8, 9, 10, 11, 12, 13, 19, 18]

/-- `FastGameState::ROSETTES = (1 << 4) | (1 << 9) | (1 << 18)`. -/
def ROSETTES : Nat := (1 <<< 4) ||| (1 <<< 9) ||| (1 <<< 18)

/-- `FastGameState::SAFE_SQUARES`. -/
def SAFE_SQUARES : Nat := (1 <<< 0) ||| (1 <<< 4) ||| (1 <<< 9) ||| (1 <<< 14) ||| (1 <<< 18)

/-- `FastGameState::path_to_global` (array indexing; all call sites use `path_idx < 14`). -/
def path_to_global (player : FastPlayer) (path_idx : Nat) : Nat :=
  (PATHS player).getD path_idx 0

/-- `FastGameState::is_rosette`. -/
def is_rosette (square : Nat) : Bool := (ROSETTES >>> square) &&& 1 != 0

/-- `FastGameState::is_safe`. -/
def is_safe (square : Nat) : Bool := (SAFE_SQUARES >>> square) &&& 1 != 0

/-- `FastGameState::global_to_path`: index of the first occurrence of `global` in the
player's path, `0` if absent (the source's loop falls through to `0`). -/
def global_to_path (player : FastPlayer) (global : Nat) : Nat :=
  ((PATHS player).findIdx? (fun square => square == global)).getD 0

/-- Bit offset of a player's occupancy block (the `player_offset` match in the source). -/
def playerOffset : FastPlayer → Nat
  | .One => 0
  | .Two => 20

/-- Shift of a piece's 4-bit position field (the `shift` match in
`get_piece_pos` / `set_piece_pos`). -/
def pieceShift (player : FastPlayer) (piece_idx : Nat) : Nat :=
  match player with
  | .One => piece_idx * 4
  | .Two => 28 + piece_idx * 4

/-- `x &= !(1u64 << k)` on a `u64`. -/
def clearBitU64 (x k : Nat) : Nat := x &&& ((2 ^ 64 - 1) ^^^ (1 <<< k))

/-- `x |= 1u64 << k`. -/
def setBitU64 (x k : Nat) : Nat := x ||| (1 <<< k)

namespace FastGameState

/-- `FastGameState::new`. -/
def new : FastGameState := ⟨0, 0, 0⟩

/-- `FastGameState::current_player`. -/
def current_player (s : FastGameState) : FastPlayer :=
  if (s.scores_and_turn >>> 6) &&& 1 = 0 then .One else .Two

/-- `FastGameState::get_score`. -/
def get_score (s : FastGameState) (player : FastPlayer) : Nat :=
  match player with
  | .One => s.scores_and_turn &&& 0x7
  | .Two => (s.scores_and_turn >>> 3) &&& 0x7

/-- `FastGameState::set_score` (`!0x7 = 0xF8`, `!0x38 = 0xC7` on `u8`). -/
def set_score (s : FastGameState) (player : FastPlayer) (score : Nat) : FastGameState :=
  match player with
  | .One => { s with scores_and_turn := (s.scores_and_turn &&& 0xF8) ||| (score &&& 0x7) }
  | .Two => { s with scores_and_turn := (s.scores_and_turn &&& 0xC7) ||| ((score &&& 0x7) <<< 3) }

/-- `FastGameState::get_piece_pos`. -/
def get_piece_pos (s : FastGameState) (player : FastPlayer) (piece_idx : Nat) : Nat :=
  (s.piece_positions >>> pieceShift player piece_idx) &&& 0xF

/-- `FastGameState::set_piece_pos` (`mask = !(0xF << shift)` on `u64`). -/
def set_piece_pos (s : FastGameState) (player : FastPlayer) (piece_idx pos : Nat) :
    FastGameState :=
  let shift := pieceShift player piece_idx
  let mask := (2 ^ 64 - 1) ^^^ (0xF <<< shift)
  { s with piece_positions := (s.piece_positions &&& mask) ||| ((pos &&& 0xF) <<< shift) }

/-- `FastGameState::get_occupant`. -/
def get_occupant (s : FastGameState) (square : Nat) : Option FastPlayer :=
  if (s.occupied_squares >>> square) &&& 1 != 0 then some .One
  else if (s.occupied_squares >>> (square + 20)) &&& 1 != 0 then some .Two
  else none

/-- `FastGameState::is_winner`. -/
def is_winner (s : FastGameState) (player : FastPlayer) : Bool :=
  decide (7 ≤ s.get_score player)

/-- `FastGameState::can_move_to`. -/
def can_move_to (s : FastGameState) (player : FastPlayer) (square : Nat) : Bool :=
  match s.get_occupant square with
  | none => true
  | some occupant => decide (occupant ≠ player) && !(is_safe square)

end FastGameState

/-- The capture-search loop of `make_move` (and the identical loop inside
`evaluate_move_fast`): first index `i < 7` whose piece of player `opp` stands
on-board on global square `target` (the `for i in 0..7 { ... break }`). -/
def find_captured (s : FastGameState) (opp : FastPlayer) (target : Nat) : Option Nat :=
  (List.range 7).find? fun i =>
    let opp_pos := s.get_piece_pos opp i
    decide (1 ≤ opp_pos ∧ opp_pos ≤ 14) && (path_to_global opp (opp_pos - 1) == target)

namespace FastGameState

/-- `self.scores_and_turn ^= 1 << 6` (the turn-flip step of apply/unmake). -/
def flip_turn (s : FastGameState) : FastGameState :=
  { s with scores_and_turn := s.scores_and_turn ^^^ (1 <<< 6) }

/-- `FastGameState::apply_move_internal`.  The source mutates `self`; here each
mutation step produces the next state value. -/
def apply_move_internal (s : FastGameState) (player : FastPlayer) (mi : MoveInfo) :
    FastGameState :=
  let player_offset := playerOffset player
  -- Remove from old position
  let s1 :=
    if 1 ≤ mi.from_pos ∧ mi.from_pos ≤ 14 then
      { s with occupied_squares :=
          clearBitU64 s.occupied_squares (path_to_global player (mi.from_pos - 1) + player_offset) }
    else s
  -- Handle capture
  let s2 :=
    match mi.captured_piece with
    | some cap_piece =>
      let opp_player := player.opposite
      let opp_offset := playerOffset opp_player
      let cap_pos := s1.get_piece_pos opp_player cap_piece
      let cap_square := path_to_global opp_player (cap_pos - 1)
      let t := { s1 with occupied_squares := clearBitU64 s1.occupied_squares (cap_square + opp_offset) }
      t.set_piece_pos opp_player cap_piece 0
    | none => s1
  -- Set new position
  let s3 := s2.set_piece_pos player mi.piece_idx mi.to_pos
  let s4 :=
    if 1 ≤ mi.to_pos ∧ mi.to_pos ≤ 14 then
      { s3 with occupied_squares :=
          setBitU64 s3.occupied_squares (path_to_global player (mi.to_pos - 1) + player_offset) }
    else if mi.to_pos = 15 then
      -- Update score
      s3.set_score player (s3.get_score player + 1)
    else s3
  -- Update turn if no extra turn
  if !mi.extra_turn then s4.flip_turn else s4

/-- `FastGameState::make_move`.  Returns the `MoveInfo` undo record together with
the mutated state (the source mutates `self` in place). -/
def make_move (s : FastGameState) (piece_idx roll : Nat) : Option (MoveInfo × FastGameState) :=
  let player := s.current_player
  let from_pos := s.get_piece_pos player piece_idx
  let dest : Option Nat :=
    if from_pos = 0 then some 1  -- Off board to path position 0 (encoded as 1)
    else if 1 ≤ from_pos ∧ from_pos ≤ 14 then
      let path_idx := from_pos - 1
      let new_path_idx := path_idx + roll
      if 14 ≤ new_path_idx then some 15  -- Finished
      else some (new_path_idx + 1)  -- On board
    else none  -- Already finished (15) / unreachable codes
  match dest with
  | none => none
  | some to_pos =>
    -- Validate move; `none` = illegal, `some c` = legal with captured piece `c`
    let validated : Option (Option Nat) :=
      if 1 ≤ to_pos ∧ to_pos ≤ 14 then
        let target_square := path_to_global player (to_pos - 1)
        match s.get_occupant target_square with
        | some occupant =>
          if occupant = player then none
          else if is_safe target_square then none
          else some (find_captured s player.opposite target_square)  -- Capture
        | none => some none
      else some none
    match validated with
    | none => none
    | some captured_piece =>
      let extra_turn := decide (1 ≤ to_pos ∧ to_pos ≤ 14) &&
        is_rosette (path_to_global player (to_pos - 1))
      let move_info : MoveInfo := ⟨piece_idx, from_pos, to_pos, captured_piece, extra_turn⟩
      some (move_info, s.apply_move_internal player move_info)

/-- `FastGameState::unmake_move`. -/
def unmake_move (s : FastGameState) (player : FastPlayer) (mi : MoveInfo) : FastGameState :=
  let player_offset := playerOffset player
  -- Remove from current position / undo score
  let s1 :=
    if 1 ≤ mi.to_pos ∧ mi.to_pos ≤ 14 then
      { s with occupied_squares :=
          clearBitU64 s.occupied_squares (path_to_global player (mi.to_pos - 1) + player_offset) }
    else if mi.to_pos = 15 then
      s.set_score player (s.get_score player - 1)
    else s
  -- Restore to old position
  let s2 := s1.set_piece_pos player mi.piece_idx mi.from_pos
  let s3 :=
    if 1 ≤ mi.from_pos ∧ mi.from_pos ≤ 14 then
      { s2 with occupied_squares :=
          setBitU64 s2.occupied_squares (path_to_global player (mi.from_pos - 1) + player_offset) }
    else s2
  -- Restore captured piece
  let s4 :=
    match mi.captured_piece with
    | some cap_piece =>
      let opp_player := player.opposite
      let opp_offset := playerOffset opp_player
      let cap_square := path_to_global player (mi.to_pos - 1)
      let cap_path_pos := global_to_path opp_player cap_square + 1
      let t := s3.set_piece_pos opp_player cap_piece cap_path_pos
      { t with occupied_squares := setBitU64 t.occupied_squares (cap_square + opp_offset) }
    | none => s3
  -- Restore turn
  if !mi.extra_turn then s4.flip_turn else s4

/-- `FastGameState::generate_moves` (the `Vec` push loop over `0..7` becomes a
filter over `List.range 7`, preserving ascending order). -/
def generate_moves (s : FastGameState) (roll : Nat) : List Nat :=
  if roll = 0 then []
  else
    let player := s.current_player
    (List.range 7).filter fun piece_idx =>
      let pos := s.get_piece_pos player piece_idx
      if pos = 0 then
        -- Off board: check if can enter at position 0
        s.can_move_to player (path_to_global player 0)
      else if 1 ≤ pos ∧ pos ≤ 14 then
        let new_path_idx := (pos - 1) + roll
        if new_path_idx = 14 then true  -- Exact move to finish
        else if new_path_idx < 14 then s.can_move_to player (path_to_global player new_path_idx)
        else false
      else false  -- Already finished

end FastGameState

/-- A piece of `player` stands on-board on global square `sq`. -/
abbrev onSquare (s : FastGameState) (player : FastPlayer) (i sq : Nat) : Prop :=
  1 ≤ s.get_piece_pos player i ∧ s.get_piece_pos player i ≤ 14 ∧
    path_to_global player (s.get_piece_pos player i - 1) = sq

/-- Well-formedness of a packed state: the representation invariants of §3 of the
spec (field bounds, at most one occupant per square, occupancy bits agree with
the position table, no two pieces of a player stacked, scores count finished
pieces). -/
structure WF (s : FastGameState) : Prop where
  occ_lt : s.occupied_squares < 2 ^ 40
  pp_lt : s.piece_positions < 2 ^ 56
  st_lt : s.scores_and_turn < 2 ^ 7
  one_per_square : ∀ sq < 20,
    ¬(s.occupied_squares.testBit sq ∧ s.occupied_squares.testBit (sq + 20))
  agree : ∀ pl : FastPlayer, ∀ sq < 20,
    (s.occupied_squares.testBit (sq + playerOffset pl) ↔ ∃ i < 7, onSquare s pl i sq)
  no_stack : ∀ pl : FastPlayer, ∀ i < 7, ∀ j < 7,
    (1 ≤ s.get_piece_pos pl i ∧ s.get_piece_pos pl i ≤ 14 ∧
     1 ≤ s.get_piece_pos pl j ∧ s.get_piece_pos pl j ≤ 14 ∧
     path_to_global pl (s.get_piece_pos pl i - 1) = path_to_global pl (s.get_piece_pos pl j - 1)) →
    i = j
  score_finished : ∀ pl : FastPlayer,
    s.get_score pl = ((List.range 7).filter fun i => s.get_piece_pos pl i == 15).length

theorem wf_iff (s : FastGameState) : WF s ↔
    (s.occupied_squares < 2 ^ 40 ∧ s.piece_positions < 2 ^ 56 ∧ s.scores_and_turn < 2 ^ 7 ∧
    (∀ sq < 20, ¬(s.occupied_squares.testBit sq ∧ s.occupied_squares.testBit (sq + 20))) ∧
    (∀ pl : FastPlayer, ∀ sq < 20,
      (s.occupied_squares.testBit (sq + playerOffset pl) ↔ ∃ i < 7, onSquare s pl i sq)) ∧
    (∀ pl : FastPlayer, ∀ i < 7, ∀ j < 7,
      (1 ≤ s.get_piece_pos pl i ∧ s.get_piece_pos pl i ≤ 14 ∧
       1 ≤ s.get_piece_pos pl j ∧ s.get_piece_pos pl j ≤ 14 ∧
       path_to_global pl (s.get_piece_pos pl i - 1) = path_to_global pl (s.get_piece_pos pl j - 1)) →
      i = j) ∧
    (∀ pl : FastPlayer,
      s.get_score pl = ((List.range 7).filter fun i => s.get_piece_pos pl i == 15).length)) :=
  ⟨fun h => ⟨h.1, h.2, h.3, h.4, h.5, h.6, h.7⟩,
   fun h => ⟨h.1, h.2.1, h.2.2.1, h.2.2.2.1, h.2.2.2.2.1, h.2.2.2.2.2.1, h.2.2.2.2.2.2⟩⟩

instance (s : FastGameState) : Decidable (WF s) :=
  decidable_of_iff _ (wf_iff s).symm

/-! ### Bit-manipulation lemma kit -/

theorem testBit_clearBitU64 (x k j : Nat) (hk : k < 64) :
    (clearBitU64 x k).testBit j = (x.testBit j && !decide (j = k) && decide (j < 64)) := by
  unfold clearBitU64
  rw [Nat.one_shiftLeft]
  simp only [Nat.testBit_and, Nat.testBit_xor, Nat.testBit_two_pow_sub_one, Nat.testBit_two_pow]
  by_cases h1 : j < 64 <;> by_cases h2 : j = k <;> simp [h1, h2] <;> omega

theorem testBit_setBitU64 (x k j : Nat) :
    (setBitU64 x k).testBit j = (x.testBit j || decide (j = k)) := by
  unfold setBitU64
  rw [Nat.one_shiftLeft]
  simp only [Nat.testBit_or, Nat.testBit_two_pow]
  by_cases h2 : j = k <;> simp [h2]
  · intro h; omega

theorem clearBitU64_lt (x k n : Nat) (hx : x < 2 ^ n) : clearBitU64 x k < 2 ^ n :=
  lt_of_le_of_lt Nat.and_le_left hx

theorem setBitU64_lt (x k n : Nat) (hx : x < 2 ^ n) (hk : k < n) : setBitU64 x k < 2 ^ n := by
  unfold setBitU64
  rw [Nat.one_shiftLeft]
  exact Nat.or_lt_two_pow hx (Nat.pow_lt_pow_right (by norm_num) hk)

theorem testBit_setPP (pp sh v j : Nat) (hsh : sh + 4 ≤ 64) :
    ((pp &&& ((2 ^ 64 - 1) ^^^ (0xF <<< sh))) ||| ((v &&& 0xF) <<< sh)).testBit j =
      if sh ≤ j ∧ j < sh + 4 then v.testBit (j - sh)
      else (pp.testBit j && decide (j < 64)) := by
  have h15 : (0xF : Nat) = 2 ^ 4 - 1 := rfl
  simp only [Nat.testBit_or, Nat.testBit_and, Nat.testBit_xor, Nat.testBit_shiftLeft,
    h15, Nat.testBit_two_pow_sub_one]
  by_cases h1 : sh ≤ j
  · by_cases h2 : j < sh + 4
    · have hj64 : j < 64 := by omega
      have h4 : j - sh < 4 := by omega
      simp [h1, h2, hj64, h4]
    · have h4 : ¬(j - sh < 4) := by omega
      by_cases hj64 : j < 64 <;> simp [h1, h2, hj64, h4]
  · have hno : ¬(sh ≤ j ∧ j < sh + 4) := by omega
    have hj64 : j < 64 := by omega
    simp [h1, hno, hj64]

theorem pieceShift_add_four_le (pl : FastPlayer) (i : Nat) (hi : i < 7) :
    pieceShift pl i + 4 ≤ 56 := by
  cases pl <;> simp [pieceShift] <;> omega

theorem pieceShift_disjoint (pl pl' : FastPlayer) (i j : Nat) (hi : i < 7) (hj : j < 7)
    (hne : ¬(pl = pl' ∧ i = j)) :
    pieceShift pl i + 4 ≤ pieceShift pl' j ∨ pieceShift pl' j + 4 ≤ pieceShift pl i := by
  cases pl <;> cases pl' <;> simp_all [pieceShift] <;> omega

namespace FastGameState

theorem set_piece_pos_occ (s : FastGameState) (pl : FastPlayer) (i v : Nat) :
    (s.set_piece_pos pl i v).occupied_squares = s.occupied_squares := rfl

theorem set_piece_pos_st (s : FastGameState) (pl : FastPlayer) (i v : Nat) :
    (s.set_piece_pos pl i v).scores_and_turn = s.scores_and_turn := rfl

theorem set_piece_pos_pp (s : FastGameState) (pl : FastPlayer) (i v : Nat) :
    (s.set_piece_pos pl i v).piece_positions =
      (s.piece_positions &&& ((2 ^ 64 - 1) ^^^ (0xF <<< pieceShift pl i))) |||
        ((v &&& 0xF) <<< pieceShift pl i) := rfl

theorem get_piece_pos_lt_16 (s : FastGameState) (pl : FastPlayer) (i : Nat) :
    s.get_piece_pos pl i < 16 :=
  lt_of_le_of_lt Nat.and_le_right (by norm_num)

theorem testBit_get_piece_pos (s : FastGameState) (pl : FastPlayer) (i t : Nat) :
    (s.get_piece_pos pl i).testBit t =
      (s.piece_positions.testBit (pieceShift pl i + t) && decide (t < 4)) := by
  unfold get_piece_pos
  rw [show (0xF : Nat) = 2 ^ 4 - 1 from rfl]
  simp only [Nat.testBit_and, Nat.testBit_shiftRight, Nat.testBit_two_pow_sub_one]

theorem testBit_set_piece_pos (s : FastGameState) (pl : FastPlayer) (i v j : Nat)
    (hi : i < 7) :
    ((s.set_piece_pos pl i v).piece_positions).testBit j =
      if pieceShift pl i ≤ j ∧ j < pieceShift pl i + 4 then v.testBit (j - pieceShift pl i)
      else (s.piece_positions.testBit j && decide (j < 64)) := by
  rw [set_piece_pos_pp]
  exact testBit_setPP _ _ _ _ (by have := pieceShift_add_four_le pl i hi; omega)

theorem testBit_false_of_lt_16 (v t : Nat) (hv : v < 16) (ht : 4 ≤ t) :
    v.testBit t = false := by
  apply Nat.testBit_lt_two_pow
  calc v < 2 ^ 4 := hv
    _ ≤ 2 ^ t := Nat.pow_le_pow_right (by norm_num) ht

theorem get_set_same (s : FastGameState) (pl : FastPlayer) (i v : Nat) (hi : i < 7)
    (hv : v < 16) : (s.set_piece_pos pl i v).get_piece_pos pl i = v := by
  have hsh := pieceShift_add_four_le pl i hi
  apply Nat.eq_of_testBit_eq; intro t
  rw [testBit_get_piece_pos, testBit_set_piece_pos _ _ _ _ _ hi]
  by_cases ht : t < 4
  · rw [if_pos ⟨Nat.le_add_right _ _, by omega⟩, Nat.add_sub_cancel_left]
    simp [ht]
  · rw [if_neg (by omega)]
    rw [testBit_false_of_lt_16 v t hv (by omega)]
    simp [ht]

theorem get_set_ne (s : FastGameState) (pl pl' : FastPlayer) (i j v : Nat) (hi : i < 7)
    (hj : j < 7) (hne : ¬(pl = pl' ∧ i = j)) :
    (s.set_piece_pos pl' j v).get_piece_pos pl i = s.get_piece_pos pl i := by
  have hsh := pieceShift_add_four_le pl i hi
  have hsh' := pieceShift_add_four_le pl' j hj
  have hd := pieceShift_disjoint pl pl' i j hi hj hne
  apply Nat.eq_of_testBit_eq; intro t
  rw [testBit_get_piece_pos, testBit_get_piece_pos, testBit_set_piece_pos _ _ _ _ _ hj]
  by_cases ht : t < 4
  · rw [if_neg (by omega)]
    simp [show pieceShift pl i + t < 64 by omega]
  · simp [ht]

theorem state_ext (a b : FastGameState) (h1 : a.occupied_squares = b.occupied_squares)
    (h2 : a.piece_positions = b.piece_positions)
    (h3 : a.scores_and_turn = b.scores_and_turn) : a = b := by
  cases a; cases b; simp_all

theorem set_set_same (s : FastGameState) (pl : FastPlayer) (i v w : Nat) (hi : i < 7) :
    (s.set_piece_pos pl i v).set_piece_pos pl i w = s.set_piece_pos pl i w := by
  refine state_ext _ _ rfl ?_ rfl
  apply Nat.eq_of_testBit_eq; intro t
  simp only [testBit_set_piece_pos _ _ _ _ _ hi]
  by_cases hin : pieceShift pl i ≤ t ∧ t < pieceShift pl i + 4
  · simp [hin]
  · by_cases h64 : t < 64 <;> simp [hin, h64]

theorem set_get_self (s : FastGameState) (pl : FastPlayer) (i : Nat) (hi : i < 7)
    (hpp : s.piece_positions < 2 ^ 64) :
    s.set_piece_pos pl i (s.get_piece_pos pl i) = s := by
  have hsh := pieceShift_add_four_le pl i hi
  refine state_ext _ _ rfl ?_ rfl
  apply Nat.eq_of_testBit_eq; intro t
  simp only [testBit_set_piece_pos _ _ _ _ _ hi]
  by_cases hin : pieceShift pl i ≤ t ∧ t < pieceShift pl i + 4
  · rw [if_pos hin, testBit_get_piece_pos]
    have h1 : pieceShift pl i + (t - pieceShift pl i) = t := by omega
    have h2 : t - pieceShift pl i < 4 := by omega
    simp [h1, h2]
  · rw [if_neg hin]
    by_cases h64 : t < 64
    · simp [h64]
    · have : s.piece_positions.testBit t = false := by
        apply Nat.testBit_lt_two_pow
        calc s.piece_positions < 2 ^ 64 := hpp
          _ ≤ 2 ^ t := Nat.pow_le_pow_right (by norm_num) (by omega)
      simp [h64, this]

theorem set_piece_pos_comm (s : FastGameState) (pl pl' : FastPlayer) (i j v w : Nat)
    (hi : i < 7) (hj : j < 7) (hne : ¬(pl = pl' ∧ i = j)) :
    (s.set_piece_pos pl i v).set_piece_pos pl' j w =
      (s.set_piece_pos pl' j w).set_piece_pos pl i v := by
  have hsh := pieceShift_add_four_le pl i hi
  have hsh' := pieceShift_add_four_le pl' j hj
  have hd := pieceShift_disjoint pl pl' i j hi hj hne
  refine state_ext _ _ rfl ?_ rfl
  apply Nat.eq_of_testBit_eq; intro t
  simp only [testBit_set_piece_pos _ _ _ _ _ hi, testBit_set_piece_pos _ _ _ _ _ hj]
  by_cases hci : pieceShift pl i ≤ t ∧ t < pieceShift pl i + 4 <;>
    by_cases hcj : pieceShift pl' j ≤ t ∧ t < pieceShift pl' j + 4
  · omega
  · simp [hci, hcj, show t < 64 by omega]
  · simp [hci, hcj, show t < 64 by omega]
  · simp [hci, hcj]

theorem set_piece_pos_pp_lt (s : FastGameState) (pl : FastPlayer) (i v : Nat) (hi : i < 7)
    (hpp : s.piece_positions < 2 ^ 56) :
    (s.set_piece_pos pl i v).piece_positions < 2 ^ 56 := by
  have hsh := pieceShift_add_four_le pl i hi
  rw [set_piece_pos_pp]
  apply Nat.or_lt_two_pow (lt_of_le_of_lt Nat.and_le_left hpp)
  calc (v &&& 0xF) <<< pieceShift pl i = (v &&& 0xF) * 2 ^ pieceShift pl i := by
        rw [Nat.shiftLeft_eq]
    _ < 16 * 2 ^ 52 := by
        apply Nat.mul_lt_mul_of_lt_of_le (lt_of_le_of_lt Nat.and_le_right (by norm_num))
          (Nat.pow_le_pow_right (by norm_num) (by omega)) (by norm_num)
    _ ≤ 2 ^ 56 := by norm_num

end FastGameState

/-! ### Score and turn-bit lemma kit -/

/-- Bit offset of a player's 3-bit score field inside `scores_and_turn`. -/
def scoreShift : FastPlayer → Nat
  | .One => 0
  | .Two => 3

theorem testBit_numeral_0xF8 (t : Nat) : (0xF8 : Nat).testBit t = decide (3 ≤ t ∧ t < 8) := by
  by_cases h : t < 8
  · interval_cases t <;> decide
  · rw [Nat.testBit_lt_two_pow (by calc (0xF8 : Nat) < 2 ^ 8 := by norm_num
      _ ≤ 2 ^ t := Nat.pow_le_pow_right (by norm_num) (by omega))]
    simp; omega

theorem testBit_numeral_0xC7 (t : Nat) :
    (0xC7 : Nat).testBit t = decide (t < 3 ∨ t = 6 ∨ t = 7) := by
  by_cases h : t < 8
  · interval_cases t <;> decide
  · rw [Nat.testBit_lt_two_pow (by calc (0xC7 : Nat) < 2 ^ 8 := by norm_num
      _ ≤ 2 ^ t := Nat.pow_le_pow_right (by norm_num) (by omega))]
    simp; omega

namespace FastGameState

theorem set_score_occ (s : FastGameState) (pl : FastPlayer) (v : Nat) :
    (s.set_score pl v).occupied_squares = s.occupied_squares := by cases pl <;> rfl

theorem set_score_pp (s : FastGameState) (pl : FastPlayer) (v : Nat) :
    (s.set_score pl v).piece_positions = s.piece_positions := by cases pl <;> rfl

theorem get_piece_pos_set_score (s : FastGameState) (pl' : FastPlayer) (v : Nat)
    (pl : FastPlayer) (i : Nat) :
    (s.set_score pl' v).get_piece_pos pl i = s.get_piece_pos pl i := by
  unfold get_piece_pos; rw [set_score_pp]

theorem testBit_get_score (s : FastGameState) (pl : FastPlayer) (t : Nat) :
    (s.get_score pl).testBit t =
      (s.scores_and_turn.testBit (scoreShift pl + t) && decide (t < 3)) := by
  cases pl <;> unfold get_score scoreShift <;>
    rw [show (0x7 : Nat) = 2 ^ 3 - 1 from rfl] <;>
    simp only [Nat.testBit_and, Nat.testBit_shiftRight, Nat.testBit_two_pow_sub_one,
      Nat.zero_add]

theorem get_score_lt_8 (s : FastGameState) (pl : FastPlayer) : s.get_score pl < 8 := by
  cases pl <;> exact lt_of_le_of_lt Nat.and_le_right (by norm_num)

theorem testBit_set_score (s : FastGameState) (pl : FastPlayer) (v t : Nat) :
    ((s.set_score pl v).scores_and_turn).testBit t =
      if scoreShift pl ≤ t ∧ t < scoreShift pl + 3 then v.testBit (t - scoreShift pl)
      else (s.scores_and_turn.testBit t && decide (t < 8)) := by
  cases pl
  · show ((s.scores_and_turn &&& 0xF8) ||| (v &&& 0x7)).testBit t = _
    rw [show (0x7 : Nat) = 2 ^ 3 - 1 from rfl]
    simp only [Nat.testBit_or, Nat.testBit_and, testBit_numeral_0xF8,
      Nat.testBit_two_pow_sub_one, scoreShift]
    by_cases h3 : t < 3
    · rw [if_pos (by omega)]
      simp [h3, show ¬(3 ≤ t ∧ t < 8) by omega]
    · rw [if_neg (by omega)]
      by_cases h8 : t < 8
      · simp [h3, h8, show (3 ≤ t ∧ t < 8) by omega]
      · simp [h3, h8, show ¬(3 ≤ t ∧ t < 8) by omega]
  · show ((s.scores_and_turn &&& 0xC7) ||| ((v &&& 0x7) <<< 3)).testBit t = _
    rw [show (0x7 : Nat) = 2 ^ 3 - 1 from rfl]
    simp only [Nat.testBit_or, Nat.testBit_and, testBit_numeral_0xC7, Nat.testBit_shiftLeft,
      Nat.testBit_two_pow_sub_one, scoreShift]
    by_cases hin : 3 ≤ t ∧ t < 3 + 3
    · rw [if_pos hin]
      simp [show 3 ≤ t by omega, show t - 3 < 3 by omega,
        show ¬(t < 3 ∨ t = 6 ∨ t = 7) by omega]
    · rw [if_neg hin]
      by_cases h3 : 3 ≤ t
      · by_cases h8 : t < 8
        · simp [show ¬(t - 3 < 3) by omega, h8,
            show (t < 3 ∨ t = 6 ∨ t = 7) ↔ (t = 6 ∨ t = 7) by omega]
          by_cases h6 : t = 6 <;> simp [h6] <;> omega
        · simp [show ¬(t - 3 < 3) by omega, h8, show ¬(t < 3 ∨ t = 6 ∨ t = 7) by omega]
      · simp [show t < 3 by omega, show t < 8 by omega, show ¬(3 ≤ t) by omega]

theorem get_score_set_score_same (s : FastGameState) (pl : FastPlayer) (v : Nat)
    (hv : v < 8) : (s.set_score pl v).get_score pl = v := by
  apply Nat.eq_of_testBit_eq; intro t
  rw [testBit_get_score, testBit_set_score]
  have hss : scoreShift pl ≤ 3 := by cases pl <;> simp [scoreShift]
  by_cases ht : t < 3
  · rw [if_pos ⟨Nat.le_add_right _ _, by omega⟩, Nat.add_sub_cancel_left]
    simp [ht]
  · rw [if_neg (by omega)]
    have : v.testBit t = false := by
      apply Nat.testBit_lt_two_pow
      calc v < 2 ^ 3 := hv
        _ ≤ 2 ^ t := Nat.pow_le_pow_right (by norm_num) (by omega)
    simp [ht, this]

theorem get_score_set_score_ne (s : FastGameState) (pl pl' : FastPlayer) (v : Nat)
    (hne : pl ≠ pl') : (s.set_score pl' v).get_score pl = s.get_score pl := by
  apply Nat.eq_of_testBit_eq; intro t
  rw [testBit_get_score, testBit_get_score, testBit_set_score]
  have hd : scoreShift pl + 3 ≤ scoreShift pl' ∨ scoreShift pl' + 3 ≤ scoreShift pl := by
    cases pl <;> cases pl' <;> simp_all [scoreShift]
  have hss : scoreShift pl ≤ 3 := by cases pl <;> simp [scoreShift]
  by_cases ht : t < 3
  · rw [if_neg (by omega)]
    simp [show scoreShift pl + t < 8 by omega]
  · simp [ht]

theorem set_score_set_score (s : FastGameState) (pl : FastPlayer) (v w : Nat) :
    (s.set_score pl v).set_score pl w = s.set_score pl w := by
  refine state_ext _ _ (by rw [set_score_occ, set_score_occ, set_score_occ])
    (by rw [set_score_pp, set_score_pp, set_score_pp]) ?_
  apply Nat.eq_of_testBit_eq; intro t
  simp only [testBit_set_score]
  by_cases hin : scoreShift pl ≤ t ∧ t < scoreShift pl + 3
  · simp [hin]
  · by_cases h8 : t < 8 <;> simp [hin, h8]

theorem set_score_get_self (s : FastGameState) (pl : FastPlayer)
    (hst : s.scores_and_turn < 2 ^ 8) : s.set_score pl (s.get_score pl) = s := by
  refine state_ext _ _ (set_score_occ _ _ _) (set_score_pp _ _ _) ?_
  apply Nat.eq_of_testBit_eq; intro t
  rw [testBit_set_score]
  have hss : scoreShift pl ≤ 3 := by cases pl <;> simp [scoreShift]
  by_cases hin : scoreShift pl ≤ t ∧ t < scoreShift pl + 3
  · rw [if_pos hin, testBit_get_score]
    have h1 : scoreShift pl + (t - scoreShift pl) = t := by omega
    simp [h1, show t - scoreShift pl < 3 by omega]
  · rw [if_neg hin]
    by_cases h8 : t < 8
    · simp [h8]
    · have : s.scores_and_turn.testBit t = false := by
        apply Nat.testBit_lt_two_pow
        calc s.scores_and_turn < 2 ^ 8 := hst
          _ ≤ 2 ^ t := Nat.pow_le_pow_right (by norm_num) (by omega)
      simp [h8, this]

theorem flip_turn_occ (s : FastGameState) :
    s.flip_turn.occupied_squares = s.occupied_squares := rfl

theorem flip_turn_st (s : FastGameState) :
    s.flip_turn.scores_and_turn = s.scores_and_turn ^^^ (1 <<< 6) := rfl

theorem flip_turn_pp (s : FastGameState) :
    s.flip_turn.piece_positions = s.piece_positions := rfl

theorem get_piece_pos_flip_turn (s : FastGameState) (pl : FastPlayer) (i : Nat) :
    s.flip_turn.get_piece_pos pl i = s.get_piece_pos pl i := rfl

theorem testBit_flip_turn (s : FastGameState) (t : Nat) :
    (s.flip_turn.scores_and_turn).testBit t =
      (s.scores_and_turn.testBit t ^^ decide (t = 6)) := by
  show ((s.scores_and_turn ^^^ (1 <<< 6)).testBit t) = _
  rw [Nat.one_shiftLeft]
  simp only [Nat.testBit_xor, Nat.testBit_two_pow]
  by_cases h : t = 6
  · subst h; simp
  · simp [h, show ¬(6 = t) by omega]

theorem flip_turn_flip_turn (s : FastGameState) : s.flip_turn.flip_turn = s := by
  refine state_ext _ _ rfl rfl ?_
  show (s.scores_and_turn ^^^ (1 <<< 6)) ^^^ (1 <<< 6) = s.scores_and_turn
  rw [Nat.xor_assoc, Nat.xor_self, Nat.xor_zero]

theorem get_score_flip_turn (s : FastGameState) (pl : FastPlayer) :
    s.flip_turn.get_score pl = s.get_score pl := by
  apply Nat.eq_of_testBit_eq; intro t
  rw [testBit_get_score, testBit_get_score, testBit_flip_turn]
  have hss : scoreShift pl ≤ 3 := by cases pl <;> simp [scoreShift]
  by_cases ht : t < 3
  · simp [show ¬(scoreShift pl + t = 6) by omega]
  · simp [ht]

theorem set_score_flip_turn (s : FastGameState) (pl : FastPlayer) (v : Nat) :
    (s.flip_turn).set_score pl v = (s.set_score pl v).flip_turn := by
  refine state_ext _ _ (by rw [set_score_occ, flip_turn_occ, flip_turn_occ, set_score_occ])
    (by rw [set_score_pp, flip_turn_pp, flip_turn_pp, set_score_pp]) ?_
  apply Nat.eq_of_testBit_eq; intro t
  rw [testBit_flip_turn, testBit_set_score, testBit_set_score]
  have hss : scoreShift pl ≤ 3 := by cases pl <;> simp [scoreShift]
  by_cases hin : scoreShift pl ≤ t ∧ t < scoreShift pl + 3
  · simp [hin, show ¬(t = 6) by omega]
  · rw [if_neg hin, if_neg hin, testBit_flip_turn]
    by_cases h6 : t = 6
    · subst h6; simp
    · by_cases h8 : t < 8 <;> simp [h6, h8]

theorem testBit_six_of_current_player (s : FastGameState) :
    s.current_player = (if s.scores_and_turn.testBit 6 then FastPlayer.Two else FastPlayer.One) := by
  unfold current_player
  rw [Nat.and_one_is_mod, Nat.shiftRight_eq_div_pow, Nat.testBit_to_div_mod]
  rcases Nat.mod_two_eq_zero_or_one (s.scores_and_turn / 2 ^ 6) with h | h <;> rw [h] <;> simp

theorem current_player_flip_turn (s : FastGameState) :
    s.flip_turn.current_player = s.current_player.opposite := by
  rw [testBit_six_of_current_player, testBit_six_of_current_player, testBit_flip_turn]
  by_cases h : s.scores_and_turn.testBit 6 <;> simp [h, FastPlayer.opposite]

theorem current_player_set_score (s : FastGameState) (pl : FastPlayer) (v : Nat) :
    (s.set_score pl v).current_player = s.current_player := by
  rw [testBit_six_of_current_player, testBit_six_of_current_player, testBit_set_score]
  have hss : scoreShift pl ≤ 3 := by cases pl <;> simp [scoreShift]
  rw [if_neg (show ¬(scoreShift pl ≤ 6 ∧ 6 < scoreShift pl + 3) by omega)]
  simp

theorem set_score_st_lt (s : FastGameState) (pl : FastPlayer) (v : Nat)
    (hst : s.scores_and_turn < 2 ^ 7) :
    (s.set_score pl v).scores_and_turn < 2 ^ 7 := by
  cases pl
  · show (s.scores_and_turn &&& 0xF8) ||| (v &&& 0x7) < 2 ^ 7
    exact Nat.or_lt_two_pow (lt_of_le_of_lt Nat.and_le_left hst)
      (lt_of_le_of_lt Nat.and_le_right (by norm_num))
  · show (s.scores_and_turn &&& 0xC7) ||| ((v &&& 0x7) <<< 3) < 2 ^ 7
    apply Nat.or_lt_two_pow (lt_of_le_of_lt Nat.and_le_left hst)
    calc (v &&& 0x7) <<< 3 = (v &&& 0x7) * 2 ^ 3 := by rw [Nat.shiftLeft_eq]
      _ ≤ 7 * 2 ^ 3 := Nat.mul_le_mul_right _ Nat.and_le_right
      _ < 2 ^ 7 := by norm_num

theorem flip_turn_st_lt (s : FastGameState) (hst : s.scores_and_turn < 2 ^ 7) :
    s.flip_turn.scores_and_turn < 2 ^ 7 := by
  show s.scores_and_turn ^^^ (1 <<< 6) < 2 ^ 7
  exact Nat.xor_lt_two_pow hst (by decide)

end FastGameState

/-! ### Geometry facts and `make_move` inversion -/

theorem FastPlayer.opposite_opposite (pl : FastPlayer) : pl.opposite.opposite = pl := by
  cases pl <;> rfl

theorem FastPlayer.opposite_ne (pl : FastPlayer) : pl.opposite ≠ pl := by
  cases pl <;> simp [FastPlayer.opposite]

theorem FastPlayer.eq_opposite_of_ne (a b : FastPlayer) (h : a ≠ b) : a = b.opposite := by
  cases a <;> cases b <;> simp_all [FastPlayer.opposite]

theorem path_to_global_lt_20 : ∀ pl : FastPlayer, ∀ i < 14, path_to_global pl i < 20 := by
  decide

theorem path_to_global_injective : ∀ pl : FastPlayer, ∀ i < 14, ∀ j < 14,
    path_to_global pl i = path_to_global pl j → i = j := by
  decide

theorem global_to_path_path_to_global : ∀ pl : FastPlayer, ∀ i < 14,
    global_to_path pl (path_to_global pl i) = i := by
  decide

theorem bit_indicator_eq_testBit (x k : Nat) : ((x >>> k) &&& 1 != 0) = x.testBit k := by
  rw [Nat.and_one_is_mod, Nat.shiftRight_eq_div_pow, Nat.testBit_to_div_mod]
  rcases Nat.mod_two_eq_zero_or_one (x / 2 ^ k) with h | h <;> rw [h] <;> simp

namespace FastGameState

theorem get_occupant_eq_testBit (s : FastGameState) (sq : Nat) :
    s.get_occupant sq =
      (if s.occupied_squares.testBit sq then some FastPlayer.One
       else if s.occupied_squares.testBit (sq + 20) then some FastPlayer.Two else none) := by
  unfold get_occupant
  rw [bit_indicator_eq_testBit, bit_indicator_eq_testBit]

/-- Inversion of a successful `make_move`: the shape and validation facts of the
returned `MoveInfo`, and the identity of the returned state. -/
theorem make_move_some_elim {s : FastGameState} {piece roll : Nat} {mi : MoveInfo}
    {s2 : FastGameState} (h : s.make_move piece roll = some (mi, s2)) :
    mi.piece_idx = piece ∧
    mi.from_pos = s.get_piece_pos s.current_player piece ∧
    s2 = s.apply_move_internal s.current_player mi ∧
    mi.extra_turn = (decide (1 ≤ mi.to_pos ∧ mi.to_pos ≤ 14) &&
      is_rosette (path_to_global s.current_player (mi.to_pos - 1))) ∧
    ((mi.from_pos = 0 ∧ mi.to_pos = 1) ∨
      (1 ≤ mi.from_pos ∧ mi.from_pos ≤ 14 ∧
        ((14 ≤ mi.from_pos - 1 + roll ∧ mi.to_pos = 15) ∨
          (mi.from_pos - 1 + roll < 14 ∧ mi.to_pos = mi.from_pos - 1 + roll + 1)))) ∧
    (if 1 ≤ mi.to_pos ∧ mi.to_pos ≤ 14 then
        match s.get_occupant (path_to_global s.current_player (mi.to_pos - 1)) with
        | some occupant => occupant = s.current_player.opposite ∧
            is_safe (path_to_global s.current_player (mi.to_pos - 1)) = false ∧
            mi.captured_piece = find_captured s s.current_player.opposite
              (path_to_global s.current_player (mi.to_pos - 1))
        | none => mi.captured_piece = none
      else mi.captured_piece = none) := by
  simp only [make_move] at h
  by_cases h0 : s.get_piece_pos s.current_player piece = 0
  · rw [if_pos h0] at h
    simp only [show (1 ≤ 1 ∧ 1 ≤ 14) = True by simp, if_true] at h
    rcases hocc : s.get_occupant (path_to_global s.current_player (1 - 1)) with _ | occ <;>
      rw [hocc] at h <;> simp only [] at h
    · rw [Option.some.injEq, Prod.mk.injEq] at h
      obtain ⟨hmi, hs2⟩ := h
      subst hmi; subst hs2
      refine ⟨rfl, rfl, rfl, by simp, Or.inl ⟨h0, rfl⟩, ?_⟩
      rw [if_pos (show (1 : Nat) ≤ 1 ∧ (1 : Nat) ≤ 14 by omega), hocc]
    · by_cases hop : occ = s.current_player
      · simp [hop] at h
      · rw [if_neg hop] at h
        by_cases hsafe : is_safe (path_to_global s.current_player 0) = true
        · simp [hsafe] at h
        · rw [if_neg hsafe] at h
          rw [Option.some.injEq, Prod.mk.injEq] at h
          obtain ⟨hmi, hs2⟩ := h
          subst hmi; subst hs2
          refine ⟨rfl, rfl, rfl, by simp, Or.inl ⟨h0, rfl⟩, ?_⟩
          rw [if_pos (show (1 : Nat) ≤ 1 ∧ (1 : Nat) ≤ 14 by omega), hocc]
          exact ⟨FastPlayer.eq_opposite_of_ne _ _ hop,
            Bool.eq_false_iff.mpr hsafe, rfl⟩
  · rw [if_neg h0] at h
    by_cases h14 : 1 ≤ s.get_piece_pos s.current_player piece ∧
        s.get_piece_pos s.current_player piece ≤ 14
    · rw [if_pos h14] at h
      by_cases hfin : 14 ≤ s.get_piece_pos s.current_player piece - 1 + roll
      · rw [if_pos hfin] at h
        simp only [] at h
        rw [if_neg (by omega : ¬(1 ≤ 15 ∧ 15 ≤ 14))] at h
        rw [Option.some.injEq, Prod.mk.injEq] at h
        obtain ⟨hmi, hs2⟩ := h
        subst hmi; subst hs2
        refine ⟨rfl, rfl, rfl, rfl, Or.inr ⟨h14.1, h14.2, Or.inl ⟨hfin, rfl⟩⟩, ?_⟩
        rw [if_neg (by omega : ¬(1 ≤ 15 ∧ 15 ≤ 14))]
      · rw [if_neg hfin] at h
        simp only [] at h
        rw [if_pos (by omega : 1 ≤ s.get_piece_pos s.current_player piece - 1 + roll + 1 ∧
          s.get_piece_pos s.current_player piece - 1 + roll + 1 ≤ 14)] at h
        have hto : 1 ≤ s.get_piece_pos s.current_player piece - 1 + roll + 1 ∧
            s.get_piece_pos s.current_player piece - 1 + roll + 1 ≤ 14 := by omega
        have hlt : s.get_piece_pos s.current_player piece - 1 + roll < 14 := by omega
        rcases hocc : s.get_occupant (path_to_global s.current_player
            (s.get_piece_pos s.current_player piece - 1 + roll + 1 - 1)) with _ | occ <;>
          rw [hocc] at h <;> simp only [] at h
        · rw [Option.some.injEq, Prod.mk.injEq] at h
          obtain ⟨hmi, hs2⟩ := h
          subst hmi; subst hs2
          refine ⟨rfl, rfl, rfl, by simp, Or.inr ⟨h14.1, h14.2, Or.inr ⟨hlt, rfl⟩⟩, ?_⟩
          rw [if_pos hto, hocc]
        · by_cases hop : occ = s.current_player
          · simp [hop] at h
          · rw [if_neg hop] at h
            by_cases hsafe : is_safe (path_to_global s.current_player
                (s.get_piece_pos s.current_player piece - 1 + roll)) = true
            · simp [hsafe] at h
            · have hsafe' : is_safe (path_to_global s.current_player
                  (s.get_piece_pos s.current_player piece - 1 + roll)) = false :=
                Bool.eq_false_iff.mpr hsafe
              simp only [Nat.add_sub_cancel] at h
              rw [if_neg hsafe] at h
              rw [Option.some.injEq, Prod.mk.injEq] at h
              obtain ⟨hmi, hs2⟩ := h
              subst hmi; subst hs2
              refine ⟨rfl, rfl, rfl, by simp,
                Or.inr ⟨h14.1, h14.2, Or.inr ⟨hlt, rfl⟩⟩, ?_⟩
              rw [if_pos hto, hocc]
              exact ⟨FastPlayer.eq_opposite_of_ne _ _ hop,
                Bool.eq_false_iff.mpr hsafe, rfl⟩
    · rw [if_neg h14] at h
      simp at h

end FastGameState

/-! ### Occupancy roundtrip lemmas, component congruence, capture search -/

theorem testBit_false_of_ge (x j n : Nat) (hx : x < 2 ^ n) (hj : n ≤ j) :
    x.testBit j = false := by
  apply Nat.testBit_lt_two_pow
  exact lt_of_lt_of_le hx (Nat.pow_le_pow_right (by norm_num) hj)

theorem clear_set_self (x k : Nat) (hk : k < 64) (hx : x < 2 ^ 64)
    (h : x.testBit k = false) : clearBitU64 (setBitU64 x k) k = x := by
  apply Nat.eq_of_testBit_eq; intro j
  rw [testBit_clearBitU64 _ _ _ hk, testBit_setBitU64]
  by_cases hjk : j = k
  · subst hjk; simp [h]
  · by_cases hj64 : j < 64
    · simp [hjk, hj64]
    · simp [hjk, hj64, testBit_false_of_ge x j 64 hx (by omega)]

theorem set_clear_self (x k : Nat) (hk : k < 64) (hx : x < 2 ^ 64)
    (h : x.testBit k = true) : setBitU64 (clearBitU64 x k) k = x := by
  apply Nat.eq_of_testBit_eq; intro j
  rw [testBit_setBitU64, testBit_clearBitU64 _ _ _ hk]
  by_cases hjk : j = k
  · subst hjk; simp [h]
  · by_cases hj64 : j < 64
    · simp [hjk, hj64]
    · simp [hjk, hj64, testBit_false_of_ge x j 64 hx (by omega)]

theorem occ_roundtrip_nocap (x A B : Nat) (hA64 : A < 64) (hB64 : B < 64)
    (hx : x < 2 ^ 64) (hAB : A ≠ B) (hA : x.testBit A = true) (hB : x.testBit B = false) :
    setBitU64 (clearBitU64 (setBitU64 (clearBitU64 x A) B) B) A = x := by
  apply Nat.eq_of_testBit_eq; intro j
  rw [testBit_setBitU64, testBit_clearBitU64 _ _ _ hB64, testBit_setBitU64,
    testBit_clearBitU64 _ _ _ hA64]
  by_cases hjA : j = A
  · subst hjA; simp [hA]
  · by_cases hjB : j = B
    · subst hjB; simp [hB, hjA]
    · by_cases hj64 : j < 64
      · simp [hjA, hjB, hj64]
      · simp [hjA, hjB, hj64, testBit_false_of_ge x j 64 hx (by omega)]

theorem occ_roundtrip_cap (x A B C : Nat) (hA64 : A < 64) (hB64 : B < 64) (hC64 : C < 64)
    (hx : x < 2 ^ 64) (hAB : A ≠ B) (hAC : A ≠ C) (hBC : B ≠ C)
    (hA : x.testBit A = true) (hB : x.testBit B = false) (hC : x.testBit C = true) :
    setBitU64 (setBitU64 (clearBitU64 (setBitU64 (clearBitU64 (clearBitU64 x A) C) B) B) A)
      C = x := by
  apply Nat.eq_of_testBit_eq; intro j
  rw [testBit_setBitU64, testBit_setBitU64, testBit_clearBitU64 _ _ _ hB64,
    testBit_setBitU64, testBit_clearBitU64 _ _ _ hC64, testBit_clearBitU64 _ _ _ hA64]
  by_cases hjA : j = A
  · subst hjA; simp [hA, hAC]
  · by_cases hjB : j = B
    · subst hjB; simp [hB, hjA, hBC, Ne.symm hAB]
    · by_cases hjC : j = C
      · subst hjC; simp [hC, hjA, hjB]
      · by_cases hj64 : j < 64
        · simp [hjA, hjB, hjC, hj64]
        · simp [hjA, hjB, hjC, hj64, testBit_false_of_ge x j 64 hx (by omega)]

namespace FastGameState

theorem set_piece_pos_pp_congr (X Y : FastGameState) (pl : FastPlayer) (i v : Nat)
    (h : X.piece_positions = Y.piece_positions) :
    (X.set_piece_pos pl i v).piece_positions = (Y.set_piece_pos pl i v).piece_positions := by
  rw [set_piece_pos_pp, set_piece_pos_pp, h]

theorem get_piece_pos_congr (X Y : FastGameState) (pl : FastPlayer) (i : Nat)
    (h : X.piece_positions = Y.piece_positions) :
    X.get_piece_pos pl i = Y.get_piece_pos pl i := by
  unfold get_piece_pos; rw [h]

theorem set_score_st_congr (X Y : FastGameState) (pl : FastPlayer) (v : Nat)
    (h : X.scores_and_turn = Y.scores_and_turn) :
    (X.set_score pl v).scores_and_turn = (Y.set_score pl v).scores_and_turn := by
  cases pl <;> show _ = _ <;> simp only [set_score] <;> rw [h]

theorem get_score_congr (X Y : FastGameState) (pl : FastPlayer)
    (h : X.scores_and_turn = Y.scores_and_turn) : X.get_score pl = Y.get_score pl := by
  cases pl <;> simp only [get_score] <;> rw [h]

theorem flip_turn_st_congr (X Y : FastGameState)
    (h : X.scores_and_turn = Y.scores_and_turn) :
    X.flip_turn.scores_and_turn = Y.flip_turn.scores_and_turn := by
  show X.scores_and_turn ^^^ _ = Y.scores_and_turn ^^^ _
  rw [h]

end FastGameState

/-- If some piece of `opp` stands on `target`, the capture search succeeds and
returns a piece standing on `target`. -/
theorem find_captured_spec (s : FastGameState) (opp : FastPlayer) (target : Nat)
    (hex : ∃ i, i < 7 ∧ 1 ≤ s.get_piece_pos opp i ∧ s.get_piece_pos opp i ≤ 14 ∧
      path_to_global opp (s.get_piece_pos opp i - 1) = target) :
    ∃ c, find_captured s opp target = some c ∧ c < 7 ∧ 1 ≤ s.get_piece_pos opp c ∧
      s.get_piece_pos opp c ≤ 14 ∧ path_to_global opp (s.get_piece_pos opp c - 1) = target := by
  obtain ⟨i, hi7, hi1, hi14, hipath⟩ := hex
  unfold find_captured
  rcases hf : (List.range 7).find? (fun i =>
      decide (1 ≤ s.get_piece_pos opp i ∧ s.get_piece_pos opp i ≤ 14) &&
        (path_to_global opp (s.get_piece_pos opp i - 1) == target)) with _ | c
  · exfalso
    rw [List.find?_eq_none] at hf
    have := hf i (by simp [List.mem_range]; omega)
    simp at this
    exact absurd hipath (this hi1 hi14)
  · have hpred := List.find?_some hf
    have hmem := List.mem_of_find?_eq_some hf
    simp [List.mem_range] at hmem
    simp at hpred
    exact ⟨c, rfl, hmem, hpred.1.1, hpred.1.2, hpred.2⟩

theorem opposite_path_ne_entry : ∀ pl : FastPlayer, ∀ j < 14,
    path_to_global pl.opposite j ≠ path_to_global pl 0 := by
  decide

end Ur

namespace Ur

theorem entry_not_rosette : ∀ pl : FastPlayer, is_rosette (path_to_global pl 0) = false := by
  decide

namespace FastGameState

theorem occupant_none_bits (s : FastGameState) (sq : Nat) (h : s.get_occupant sq = none) :
    s.occupied_squares.testBit sq = false ∧ s.occupied_squares.testBit (sq + 20) = false := by
  rw [get_occupant_eq_testBit] at h
  by_cases h1 : s.occupied_squares.testBit sq <;>
    by_cases h2 : s.occupied_squares.testBit (sq + 20) <;> simp [h1, h2] at h ⊢

theorem roundtrip_case1 (s : FastGameState) (piece : Nat) (mi : MoveInfo)
    (hwf : WF s) (hp : piece < 7)
    (hpi : mi.piece_idx = piece)
    (hf0 : mi.from_pos = 0) (ht1 : mi.to_pos = 1)
    (hcap : mi.captured_piece = none) (hextra : mi.extra_turn = false)
    (hg0 : s.get_piece_pos s.current_player piece = 0)
    (hoccn : s.get_occupant (path_to_global s.current_player 0) = none) :
    (s.apply_move_internal s.current_player mi).unmake_move s.current_player mi = s := by
  have hpp64 : s.piece_positions < 2 ^ 64 := lt_trans hwf.pp_lt (by norm_num)
  have hocc64 : s.occupied_squares < 2 ^ 64 := lt_trans hwf.occ_lt (by norm_num)
  have hsq : path_to_global s.current_player 0 < 20 :=
    path_to_global_lt_20 s.current_player 0 (by norm_num)
  have hoff : playerOffset s.current_player ≤ 20 := by
    cases s.current_player <;> simp [playerOffset]
  have hbit := occupant_none_bits s _ hoccn
  have hbitB : s.occupied_squares.testBit
      (path_to_global s.current_player 0 + playerOffset s.current_player) = false := by
    have h20 : playerOffset s.current_player = 0 ∨ playerOffset s.current_player = 20 := by
      cases s.current_player <;> simp [playerOffset]
    rcases h20 with h | h <;> rw [h]
    · simpa using hbit.1
    · exact hbit.2
  refine state_ext _ _ ?_ ?_ ?_ <;>
    simp only [unmake_move, apply_move_internal, hpi, hf0, ht1, hcap, hextra,
      show (1 ≤ 0 ∧ 0 ≤ 14) = False by simp, show (1 ≤ 1 ∧ 1 ≤ 14) = True by simp,
      show ((1 : Nat) = 15) = False by simp, show ((!false : Bool) = true) = True by simp,
      show ((1 : Nat) - 1) = 0 by norm_num,
      if_true, if_false, flip_turn_occ, flip_turn_pp, flip_turn_st,
      set_piece_pos_occ, set_piece_pos_st]
  · exact clear_set_self _ _ (by omega) hocc64 hbitB
  · refine Eq.trans (set_piece_pos_pp_congr _ (s.set_piece_pos s.current_player piece 1)
      s.current_player piece 0 rfl) ?_
    rw [set_set_same _ _ _ _ _ hp]
    rw [show (0 : Nat) = s.get_piece_pos s.current_player piece from hg0.symm]
    rw [set_get_self _ _ _ hp hpp64]
  · rw [Nat.xor_assoc, Nat.xor_self, Nat.xor_zero]

theorem get_score_set_piece_pos (X : FastGameState) (pl' : FastPlayer) (i v : Nat)
    (pl : FastPlayer) : (X.set_piece_pos pl' i v).get_score pl = X.get_score pl := by
  cases pl <;> rfl

theorem get_piece_pos_occ_update (s : FastGameState) (x : Nat) (pl : FastPlayer) (i : Nat) :
    (FastGameState.mk x s.piece_positions s.scores_and_turn).get_piece_pos pl i =
      s.get_piece_pos pl i := rfl

theorem get_score_occ_update (s : FastGameState) (x : Nat) (pl : FastPlayer) :
    (FastGameState.mk x s.piece_positions s.scores_and_turn).get_score pl =
      s.get_score pl := by
  cases pl <;> rfl

theorem set_eq_self_of_get (X : FastGameState) (pl : FastPlayer) (i v : Nat) (hi : i < 7)
    (hpp : X.piece_positions < 2 ^ 64) (h : X.get_piece_pos pl i = v) :
    X.set_piece_pos pl i v = X := by
  rw [← h]; exact set_get_self _ _ _ hi hpp

theorem st_finish_chain (X : FastGameState) (pl : FastPlayer)
    (hst : X.scores_and_turn < 2 ^ 8) (hsc : X.get_score pl ≤ 6) :
    ((((X.set_score pl (X.get_score pl + 1)).flip_turn).set_score pl
      (((X.set_score pl (X.get_score pl + 1)).flip_turn).get_score pl - 1)).scores_and_turn)
        ^^^ (1 <<< 6) = X.scores_and_turn := by
  have h1 : ((X.set_score pl (X.get_score pl + 1)).flip_turn).get_score pl =
      X.get_score pl + 1 := by
    rw [get_score_flip_turn, get_score_set_score_same _ _ _ (by omega)]
  rw [h1, Nat.add_sub_cancel, set_score_flip_turn, set_score_set_score,
    set_score_get_self X pl hst, flip_turn_st, Nat.xor_assoc, Nat.xor_self, Nat.xor_zero]

theorem roundtrip_case2 (s : FastGameState) (piece : Nat) (mi : MoveInfo)
    (hwf : WF s) (hp : piece < 7)
    (hpi : mi.piece_idx = piece)
    (hfrom : mi.from_pos = s.get_piece_pos s.current_player piece)
    (h1 : 1 ≤ mi.from_pos) (h14 : mi.from_pos ≤ 14) (ht15 : mi.to_pos = 15)
    (hcap : mi.captured_piece = none) (hextra : mi.extra_turn = false)
    (hbitA : s.occupied_squares.testBit
      (path_to_global s.current_player (mi.from_pos - 1) + playerOffset s.current_player) = true)
    (hsc : s.get_score s.current_player ≤ 6) :
    (s.apply_move_internal s.current_player mi).unmake_move s.current_player mi = s := by
  have hpp64 : s.piece_positions < 2 ^ 64 := lt_trans hwf.pp_lt (by norm_num)
  have hocc64 : s.occupied_squares < 2 ^ 64 := lt_trans hwf.occ_lt (by norm_num)
  have hst8 : s.scores_and_turn < 2 ^ 8 := lt_trans hwf.st_lt (by norm_num)
  have hsq : path_to_global s.current_player (mi.from_pos - 1) < 20 :=
    path_to_global_lt_20 s.current_player _ (by omega)
  have hoff : playerOffset s.current_player ≤ 20 := by
    cases s.current_player <;> simp [playerOffset]
  refine state_ext _ _ ?_ ?_ ?_ <;>
    simp only [unmake_move, apply_move_internal, hpi, ht15, hcap, hextra,
      show (1 ≤ mi.from_pos ∧ mi.from_pos ≤ 14) = True by simp [h1, h14],
      show (1 ≤ 15 ∧ 15 ≤ 14) = False by simp, show ((15 : Nat) = 15) = True by simp,
      show ((!false : Bool) = true) = True by simp,
      if_true, if_false, flip_turn_occ, flip_turn_pp, flip_turn_st,
      set_piece_pos_occ, set_piece_pos_st, set_score_occ, set_score_pp]
  · exact set_clear_self _ _ (by omega) hocc64 hbitA
  · refine Eq.trans (set_piece_pos_pp_congr _
      ((FastGameState.mk (clearBitU64 s.occupied_squares
          (path_to_global s.current_player (mi.from_pos - 1) + playerOffset s.current_player))
          s.piece_positions s.scores_and_turn).set_piece_pos s.current_player piece 15)
      s.current_player piece mi.from_pos (by simp only [set_score_pp, flip_turn_pp])) ?_
    rw [set_set_same _ _ _ _ _ hp]
    rw [set_eq_self_of_get _ _ _ _ hp (by simpa using hpp64)
      ((get_piece_pos_occ_update s _ _ _).trans hfrom.symm)]
  · refine Eq.trans ?_ (st_finish_chain (FastGameState.mk (clearBitU64 s.occupied_squares
        (path_to_global s.current_player (mi.from_pos - 1) + playerOffset s.current_player))
        s.piece_positions s.scores_and_turn |>.set_piece_pos s.current_player piece 15)
      s.current_player (by simpa using hst8)
      (by rw [get_score_set_piece_pos, get_score_occ_update]; exact hsc))
    rfl

theorem ite_occ (c : Prop) [Decidable c] (a b : FastGameState) :
    (if c then a else b).occupied_squares =
      if c then a.occupied_squares else b.occupied_squares := by
  split <;> rfl

theorem ite_pp (c : Prop) [Decidable c] (a b : FastGameState) :
    (if c then a else b).piece_positions =
      if c then a.piece_positions else b.piece_positions := by
  split <;> rfl

theorem ite_st (c : Prop) [Decidable c] (a b : FastGameState) :
    (if c then a else b).scores_and_turn =
      if c then a.scores_and_turn else b.scores_and_turn := by
  split <;> rfl

theorem roundtrip_case3_nocap (s : FastGameState) (piece : Nat) (mi : MoveInfo)
    (hwf : WF s) (hp : piece < 7)
    (hpi : mi.piece_idx = piece)
    (hfrom : mi.from_pos = s.get_piece_pos s.current_player piece)
    (h1 : 1 ≤ mi.from_pos) (h14 : mi.from_pos ≤ 14)
    (hto1 : 1 ≤ mi.to_pos) (hto14 : mi.to_pos ≤ 14)
    (hcap : mi.captured_piece = none)
    (hABsq : path_to_global s.current_player (mi.from_pos - 1) ≠
      path_to_global s.current_player (mi.to_pos - 1))
    (hbitA : s.occupied_squares.testBit
      (path_to_global s.current_player (mi.from_pos - 1) + playerOffset s.current_player) = true)
    (hbitB : s.occupied_squares.testBit
      (path_to_global s.current_player (mi.to_pos - 1) + playerOffset s.current_player) = false) :
    (s.apply_move_internal s.current_player mi).unmake_move s.current_player mi = s := by
  have hpp64 : s.piece_positions < 2 ^ 64 := lt_trans hwf.pp_lt (by norm_num)
  have hocc64 : s.occupied_squares < 2 ^ 64 := lt_trans hwf.occ_lt (by norm_num)
  have hsqA : path_to_global s.current_player (mi.from_pos - 1) < 20 :=
    path_to_global_lt_20 s.current_player _ (by omega)
  have hsqB : path_to_global s.current_player (mi.to_pos - 1) < 20 :=
    path_to_global_lt_20 s.current_player _ (by omega)
  have hoff : playerOffset s.current_player ≤ 20 := by
    cases s.current_player <;> simp [playerOffset]
  refine state_ext _ _ ?_ ?_ ?_ <;>
    simp only [unmake_move, apply_move_internal, hpi, hcap,
      show (1 ≤ mi.from_pos ∧ mi.from_pos ≤ 14) = True by simp [h1, h14],
      show (1 ≤ mi.to_pos ∧ mi.to_pos ≤ 14) = True by simp [hto1, hto14],
      if_true, if_false, ite_occ, ite_pp, flip_turn_occ, flip_turn_pp, ite_self,
      set_piece_pos_occ, set_piece_pos_st]
  · exact occ_roundtrip_nocap _ _ _ (by omega) (by omega) hocc64 (by omega) hbitA hbitB
  · refine Eq.trans (set_piece_pos_pp_congr _
      ((FastGameState.mk (clearBitU64 s.occupied_squares
          (path_to_global s.current_player (mi.from_pos - 1) + playerOffset s.current_player))
          s.piece_positions s.scores_and_turn).set_piece_pos s.current_player piece mi.to_pos)
      s.current_player piece mi.from_pos (by simp only [set_piece_pos_pp, ite_pp,
        flip_turn_pp, ite_self])) ?_
    rw [set_set_same _ _ _ _ _ hp]
    rw [set_eq_self_of_get _ _ _ _ hp (by simpa using hpp64)
      ((get_piece_pos_occ_update s _ _ _).trans hfrom.symm)]
  · cases hx : mi.extra_turn <;>
      simp only [hx, Bool.not_true, Bool.not_false,
        show ((false : Bool) = true) = False by simp,
        show ((true : Bool) = true) = True by simp,
        if_true, if_false, flip_turn_st, set_piece_pos_st, ite_st]
    · rw [Nat.xor_assoc, Nat.xor_self, Nat.xor_zero]

theorem roundtrip_case3_cap (s : FastGameState) (piece c : Nat) (mi : MoveInfo)
    (hwf : WF s) (hp : piece < 7) (hc7 : c < 7)
    (hpi : mi.piece_idx = piece)
    (hfrom : mi.from_pos = s.get_piece_pos s.current_player piece)
    (h1 : 1 ≤ mi.from_pos) (h14 : mi.from_pos ≤ 14)
    (hto1 : 1 ≤ mi.to_pos) (hto14 : mi.to_pos ≤ 14)
    (hcap : mi.captured_piece = some c)
    (hc1 : 1 ≤ s.get_piece_pos s.current_player.opposite c)
    (hc14 : s.get_piece_pos s.current_player.opposite c ≤ 14)
    (hcpath : path_to_global s.current_player.opposite
        (s.get_piece_pos s.current_player.opposite c - 1) =
      path_to_global s.current_player (mi.to_pos - 1))
    (hABsq : path_to_global s.current_player (mi.from_pos - 1) ≠
      path_to_global s.current_player (mi.to_pos - 1))
    (hbitA : s.occupied_squares.testBit
      (path_to_global s.current_player (mi.from_pos - 1) + playerOffset s.current_player) = true)
    (hbitB : s.occupied_squares.testBit
      (path_to_global s.current_player (mi.to_pos - 1) + playerOffset s.current_player) = false)
    (hbitC : s.occupied_squares.testBit
      (path_to_global s.current_player (mi.to_pos - 1) +
        playerOffset s.current_player.opposite) = true) :
    (s.apply_move_internal s.current_player mi).unmake_move s.current_player mi = s := by
  have hpp64 : s.piece_positions < 2 ^ 64 := lt_trans hwf.pp_lt (by norm_num)
  have hocc64 : s.occupied_squares < 2 ^ 64 := lt_trans hwf.occ_lt (by norm_num)
  have hsqA : path_to_global s.current_player (mi.from_pos - 1) < 20 :=
    path_to_global_lt_20 s.current_player _ (by omega)
  have hsqB : path_to_global s.current_player (mi.to_pos - 1) < 20 :=
    path_to_global_lt_20 s.current_player _ (by omega)
  have hoffs : playerOffset s.current_player + playerOffset s.current_player.opposite = 20 ∧
      (playerOffset s.current_player = 0 ∨ playerOffset s.current_player = 20) := by
    cases s.current_player <;> simp [playerOffset, FastPlayer.opposite]
  have hnepc : ¬(s.current_player = s.current_player.opposite ∧ piece = c) := by
    intro hh
    exact FastPlayer.opposite_ne s.current_player (hh.1.symm)
  have hv : global_to_path s.current_player.opposite
      (path_to_global s.current_player (mi.to_pos - 1)) + 1 =
      s.get_piece_pos s.current_player.opposite c := by
    rw [← hcpath, global_to_path_path_to_global s.current_player.opposite _ (by omega)]
    omega
  refine state_ext _ _ ?_ ?_ ?_ <;>
    simp only [unmake_move, apply_move_internal, hpi, hcap,
      show (1 ≤ mi.from_pos ∧ mi.from_pos ≤ 14) = True by simp [h1, h14],
      show (1 ≤ mi.to_pos ∧ mi.to_pos ≤ 14) = True by simp [hto1, hto14],
      if_true, if_false, ite_occ, ite_pp, flip_turn_occ, flip_turn_pp, ite_self,
      set_piece_pos_occ, set_piece_pos_st, get_piece_pos_occ_update, hcpath]
  · exact occ_roundtrip_cap _ _ _ _ (by omega) (by omega) (by omega) hocc64
      (by omega) (by omega) (by omega) hbitA hbitB hbitC
  · refine Eq.trans (set_piece_pos_pp_congr _
      ((((FastGameState.mk (clearBitU64 (clearBitU64 s.occupied_squares
            (path_to_global s.current_player (mi.from_pos - 1) + playerOffset s.current_player))
            (path_to_global s.current_player (mi.to_pos - 1) +
              playerOffset s.current_player.opposite))
          s.piece_positions s.scores_and_turn).set_piece_pos
            s.current_player.opposite c 0).set_piece_pos s.current_player piece
              mi.to_pos).set_piece_pos s.current_player piece mi.from_pos)
      s.current_player.opposite c (global_to_path s.current_player.opposite
        (path_to_global s.current_player (mi.to_pos - 1)) + 1)
      (by simp only [set_piece_pos_pp, ite_pp, flip_turn_pp, ite_self])) ?_
    rw [set_set_same _ _ _ _ _ hp]
    rw [set_piece_pos_comm _ _ _ _ _ _ _ hp hc7 (by
      intro hh
      exact FastPlayer.opposite_ne s.current_player hh.1.symm)]
    rw [set_set_same _ _ _ _ _ hc7, hv]
    rw [set_eq_self_of_get _ _ _ _ hc7 (by simpa using hpp64)
      (get_piece_pos_occ_update s _ _ _)]
    rw [set_eq_self_of_get _ _ _ _ hp (by simpa using hpp64)
      ((get_piece_pos_occ_update s _ _ _).trans hfrom.symm)]
  · cases hx : mi.extra_turn <;>
      simp only [hx, Bool.not_true, Bool.not_false,
        show ((false : Bool) = true) = False by simp,
        show ((true : Bool) = true) = True by simp,
        if_true, if_false, flip_turn_st, set_piece_pos_st, ite_st]
    · rw [Nat.xor_assoc, Nat.xor_self, Nat.xor_zero]

theorem occupant_bit (s : FastGameState) (sq : Nat) (X : FastPlayer)
    (h : s.get_occupant sq = some X) :
    s.occupied_squares.testBit (sq + playerOffset X) = true := by
  rw [get_occupant_eq_testBit] at h
  by_cases h1 : s.occupied_squares.testBit sq <;>
    by_cases h2 : s.occupied_squares.testBit (sq + 20) <;>
    simp [h1, h2] at h <;> cases X <;> simp_all [playerOffset] <;> simpa using h1

theorem own_bit_false_of_occupant_opp (s : FastGameState) (sq : Nat) (pl : FastPlayer)
    (hsq : sq < 20)
    (hone : ∀ sq < 20, ¬(s.occupied_squares.testBit sq ∧ s.occupied_squares.testBit (sq + 20)))
    (h : s.get_occupant sq = some pl.opposite) :
    s.occupied_squares.testBit (sq + playerOffset pl) = false := by
  have hopp := occupant_bit s sq pl.opposite h
  rw [get_occupant_eq_testBit] at h
  cases pl
  · simp only [FastPlayer.opposite, playerOffset] at hopp ⊢
    by_cases h1 : s.occupied_squares.testBit sq
    · rw [if_pos h1] at h
      simp [FastPlayer.opposite] at h
    · simpa using h1
  · simp only [FastPlayer.opposite, playerOffset] at hopp ⊢
    have := hone sq hsq
    by_cases h2 : s.occupied_squares.testBit (sq + 20)
    · exfalso
      exact this ⟨by simpa using hopp, h2⟩
    · exact (Bool.not_eq_true _).mp h2

theorem score_le_6_of_piece_on_board (s : FastGameState) (pl : FastPlayer) (piece : Nat)
    (hp : piece < 7)
    (hscore : s.get_score pl = ((List.range 7).filter fun i => s.get_piece_pos pl i == 15).length)
    (hpos : s.get_piece_pos pl piece ≤ 14) :
    s.get_score pl ≤ 6 := by
  rw [hscore]
  have hlt : (((List.range 7).filter fun i => s.get_piece_pos pl i == 15).length) <
      (List.range 7).length := by
    rw [List.length_filter_lt_length_iff_exists]
    exact ⟨piece, by simp [List.mem_range, hp], by simp; omega⟩
  rw [List.length_range] at hlt
  omega

theorem playerOffset_add_inj (a b : FastPlayer) (x y : Nat) (hx : x < 20) (hy : y < 20)
    (h : x + playerOffset a = y + playerOffset b) : a = b ∧ x = y := by
  cases a <;> cases b <;> simp [playerOffset] at h ⊢ <;> omega

theorem find_captured_some_facts (s : FastGameState) (opp : FastPlayer) (target c : Nat)
    (h : find_captured s opp target = some c) :
    c < 7 ∧ 1 ≤ s.get_piece_pos opp c ∧ s.get_piece_pos opp c ≤ 14 ∧
      path_to_global opp (s.get_piece_pos opp c - 1) = target := by
  unfold find_captured at h
  have hpred := List.find?_some h
  have hmem := List.mem_of_find?_eq_some h
  simp [List.mem_range] at hmem
  simp at hpred
  exact ⟨hmem, hpred.1.1, hpred.1.2, hpred.2⟩

theorem filter_range_succ_length (p : Nat → Bool) (n : Nat) :
    ((List.range (n + 1)).filter p).length =
      ((List.range n).filter p).length + (if p n then 1 else 0) := by
  rw [List.range_succ, List.filter_append, List.length_append]
  by_cases h : p n <;> simp [List.filter_cons, h]

/-- Changing a `Bool` predicate at a single point shifts the count over `range n`
by the difference of the two values at that point. -/
theorem filter_range_length_update (p q : Nat → Bool) (x : Nat) :
    ∀ n, x < n → (∀ i < n, i ≠ x → p i = q i) →
    ((List.range n).filter p).length + (if q x then 1 else 0) =
      ((List.range n).filter q).length + (if p x then 1 else 0) := by
  intro n
  induction n with
  | zero => intro hx _; omega
  | succ n ih =>
    intro hx hagree
    rw [filter_range_succ_length, filter_range_succ_length]
    by_cases hxn : x = n
    · subst hxn
      have heq : ((List.range x).filter p).length = ((List.range x).filter q).length := by
        apply congrArg List.length
        apply List.filter_congr
        intro i hi
        simp only [List.mem_range] at hi
        exact hagree i (by omega) (by omega)
      omega
    · have := ih (by omega) (fun i hi hne => hagree i (by omega) hne)
      have hpn : p n = q n := hagree n (by omega) (fun hh => hxn hh.symm)
      rw [hpn]
      omega

theorem filter_range_length_congr (p q : Nat → Bool) (n : Nat)
    (hagree : ∀ i < n, p i = q i) :
    ((List.range n).filter p).length = ((List.range n).filter q).length := by
  apply congrArg List.length
  apply List.filter_congr
  intro i hi
  simp only [List.mem_range] at hi
  exact hagree i hi

/-- Facts harvested from a successful `make_move`, phrased only in terms of the
pre-state and the returned `MoveInfo`. -/
structure MoveFacts (s : FastGameState) (mi : MoveInfo) : Prop where
  pk7 : mi.piece_idx < 7
  pos_piece : s.get_piece_pos s.current_player mi.piece_idx = mi.from_pos
  from_le : mi.from_pos ≤ 14
  to16 : mi.to_pos < 16
  dest : (mi.from_pos = 0 ∧ mi.to_pos = 1) ∨
    (1 ≤ mi.from_pos ∧ mi.from_pos ≤ 14 ∧
      (mi.to_pos = 15 ∨ (1 ≤ mi.to_pos ∧ mi.to_pos ≤ 14)))
  capfacts : ∀ c, mi.captured_piece = some c →
    c < 7 ∧ 1 ≤ s.get_piece_pos s.current_player.opposite c ∧
      s.get_piece_pos s.current_player.opposite c ≤ 14 ∧
      path_to_global s.current_player.opposite
        (s.get_piece_pos s.current_player.opposite c - 1) =
        path_to_global s.current_player (mi.to_pos - 1) ∧
      1 ≤ mi.to_pos ∧ mi.to_pos ≤ 14
  bitB_own : (1 ≤ mi.to_pos ∧ mi.to_pos ≤ 14) →
    s.occupied_squares.testBit
      (path_to_global s.current_player (mi.to_pos - 1) +
        playerOffset s.current_player) = false
  bitB_opp_none : (1 ≤ mi.to_pos ∧ mi.to_pos ≤ 14) → mi.captured_piece = none →
    s.occupied_squares.testBit
      (path_to_global s.current_player (mi.to_pos - 1) +
        playerOffset s.current_player.opposite) = false

theorem make_facts {s : FastGameState} {piece roll : Nat} {mi : MoveInfo}
    {s2 : FastGameState} (hwf : WF s) (hp : piece < 7)
    (h : s.make_move piece roll = some (mi, s2)) : MoveFacts s mi := by
  obtain ⟨hpi, hfrom, hs2, hextra, hdest, hval⟩ := make_move_some_elim h
  have hdest' : (mi.from_pos = 0 ∧ mi.to_pos = 1) ∨
      (1 ≤ mi.from_pos ∧ mi.from_pos ≤ 14 ∧
        (mi.to_pos = 15 ∨ (1 ≤ mi.to_pos ∧ mi.to_pos ≤ 14))) := by
    rcases hdest with ⟨h0, h1⟩ | ⟨h1, h14, ⟨hge, h15⟩ | ⟨hlt, heq⟩⟩ <;> omega
  refine ⟨hpi ▸ hp, by rw [hpi]; exact hfrom.symm, ?_, ?_, hdest', ?_, ?_, ?_⟩
  all_goals try (rcases hdest' with ⟨h0, h1⟩ | ⟨h1, h14, h15 | ⟨ht1, ht14⟩⟩ <;> omega)
  · -- capfacts
    intro c hc
    by_cases ht : 1 ≤ mi.to_pos ∧ mi.to_pos ≤ 14
    · rw [if_pos ht] at hval
      rcases hocc : s.get_occupant (path_to_global s.current_player (mi.to_pos - 1))
          with _ | X <;> rw [hocc] at hval
      · rw [hc] at hval
        exact absurd hval (by simp)
      · obtain ⟨hXopp, hsafe, hfind⟩ := hval
        rw [hc] at hfind
        have hfacts := find_captured_some_facts s s.current_player.opposite
          (path_to_global s.current_player (mi.to_pos - 1)) c hfind.symm
        exact ⟨hfacts.1, hfacts.2.1, hfacts.2.2.1, hfacts.2.2.2, ht⟩
    · rw [if_neg ht] at hval
      rw [hc] at hval
      exact absurd hval (by simp)
  · -- bitB_own
    intro hT
    have hsqB : path_to_global s.current_player (mi.to_pos - 1) < 20 :=
      path_to_global_lt_20 _ _ (by omega)
    rw [if_pos hT] at hval
    rcases hocc : s.get_occupant (path_to_global s.current_player (mi.to_pos - 1))
        with _ | X <;> rw [hocc] at hval
    · have hb := occupant_none_bits s _ hocc
      have h20 : playerOffset s.current_player = 0 ∨ playerOffset s.current_player = 20 := by
        cases s.current_player <;> simp [playerOffset]
      rcases h20 with h20 | h20 <;> rw [h20] <;> simp [hb.1, hb.2]
    · obtain ⟨hXopp, hsafe, hfind⟩ := hval
      rw [hXopp] at hocc
      exact own_bit_false_of_occupant_opp s _ s.current_player hsqB
        hwf.one_per_square hocc
  · -- bitB_opp_none
    intro hT hcnone
    have hsqB : path_to_global s.current_player (mi.to_pos - 1) < 20 :=
      path_to_global_lt_20 _ _ (by omega)
    rw [if_pos hT] at hval
    rcases hocc : s.get_occupant (path_to_global s.current_player (mi.to_pos - 1))
        with _ | X <;> rw [hocc] at hval
    · have hb := occupant_none_bits s _ hocc
      have h20 : playerOffset s.current_player.opposite = 0 ∨
          playerOffset s.current_player.opposite = 20 := by
        cases s.current_player <;> simp [playerOffset, FastPlayer.opposite]
      rcases h20 with h20 | h20 <;> rw [h20] <;> simp [hb.1, hb.2]
    · obtain ⟨hXopp, hsafe, hfind⟩ := hval
      rw [hXopp] at hocc
      have hbit := occupant_bit s _ s.current_player.opposite hocc
      obtain ⟨i, hi7, hon⟩ := (hwf.agree s.current_player.opposite _ hsqB).mp hbit
      obtain ⟨c, hfc, -⟩ := find_captured_spec s s.current_player.opposite
        (path_to_global s.current_player (mi.to_pos - 1))
        ⟨i, hi7, hon.1, hon.2.1, hon.2.2⟩
      rw [hcnone] at hfind
      rw [← hfind] at hfc
      exact absurd hfc (by simp)

/-- Core make/unmake roundtrip: from any well-formed state, a successful
`make_move` is exactly inverted by `unmake_move` with the returned record. -/
theorem unmake_after_make (s : FastGameState) (piece roll : Nat) (mi : MoveInfo)
    (s2 : FastGameState) (hwf : WF s) (hp : piece < 7)
    (h : s.make_move piece roll = some (mi, s2)) :
    s2.unmake_move s.current_player mi = s := by
  obtain ⟨hpi, hfrom, hs2, hextra, hdest, hval⟩ := make_move_some_elim h
  subst hs2
  rcases hdest with ⟨hf0, ht1⟩ | ⟨h1, h14, hdest2⟩
  · -- entry move
    have hg0 : s.get_piece_pos s.current_player piece = 0 := hfrom.symm.trans hf0
    have hextra_false : mi.extra_turn = false := by
      rw [hextra, ht1]
      simp [entry_not_rosette]
    rw [ht1] at hval
    rw [if_pos (by omega : (1 : Nat) ≤ 1 ∧ (1 : Nat) ≤ 14)] at hval
    rcases hocc : s.get_occupant (path_to_global s.current_player (1 - 1)) with _ | occ <;>
      rw [hocc] at hval
    · exact roundtrip_case1 s piece mi hwf hp hpi hf0 ht1 hval hextra_false hg0 hocc
    · exfalso
      obtain ⟨hopp, hsafe, hcapf⟩ := hval
      have hbit : s.occupied_squares.testBit (path_to_global s.current_player 0 +
          playerOffset s.current_player.opposite) = true := by
        have := occupant_bit s _ occ hocc
        rwa [hopp] at this
      have hag := (hwf.agree s.current_player.opposite (path_to_global s.current_player 0)
        (path_to_global_lt_20 _ 0 (by norm_num))).mp hbit
      obtain ⟨i, hi7, hi1, hi14, hipath⟩ := hag
      exact opposite_path_ne_entry s.current_player _ (by omega) hipath
  · rcases hdest2 with ⟨hfin, ht15⟩ | ⟨hlt, hto⟩
    · -- finish move
      have hextra_false : mi.extra_turn = false := by
        rw [hextra, ht15]
        simp
      have hcap : mi.captured_piece = none := by
        rw [ht15] at hval
        rwa [if_neg (by omega : ¬((1 : Nat) ≤ 15 ∧ (15 : Nat) ≤ 14))] at hval
      have hbitA : s.occupied_squares.testBit (path_to_global s.current_player
          (mi.from_pos - 1) + playerOffset s.current_player) = true := by
        refine (hwf.agree s.current_player (path_to_global s.current_player (mi.from_pos - 1))
          (path_to_global_lt_20 _ _ (by omega))).mpr ⟨piece, hp, ?_, ?_, ?_⟩
        · rw [← hfrom]; exact h1
        · rw [← hfrom]; exact h14
        · rw [← hfrom]
      have hsc : s.get_score s.current_player ≤ 6 :=
        score_le_6_of_piece_on_board s _ piece hp (hwf.score_finished _) (by rw [← hfrom]; omega)
      exact roundtrip_case2 s piece mi hwf hp hpi hfrom h1 h14 ht15 hcap hextra_false hbitA hsc
    · -- ordinary on-board move
      have hto1 : 1 ≤ mi.to_pos := by omega
      have hto14 : mi.to_pos ≤ 14 := by omega
      rw [if_pos ⟨hto1, hto14⟩] at hval
      have hbitA : s.occupied_squares.testBit (path_to_global s.current_player
          (mi.from_pos - 1) + playerOffset s.current_player) = true := by
        refine (hwf.agree s.current_player (path_to_global s.current_player (mi.from_pos - 1))
          (path_to_global_lt_20 _ _ (by omega))).mpr ⟨piece, hp, ?_, ?_, ?_⟩
        · rw [← hfrom]; exact h1
        · rw [← hfrom]; exact h14
        · rw [← hfrom]
      rcases hocc : s.get_occupant (path_to_global s.current_player (mi.to_pos - 1))
          with _ | occ <;> rw [hocc] at hval
      · -- empty destination
        have hbits := occupant_none_bits s _ hocc
        have hbitB : s.occupied_squares.testBit (path_to_global s.current_player
            (mi.to_pos - 1) + playerOffset s.current_player) = false := by
          have h20 : playerOffset s.current_player = 0 ∨
              playerOffset s.current_player = 20 := by
            cases s.current_player <;> simp [playerOffset]
          rcases h20 with hh | hh <;> rw [hh]
          · simpa using hbits.1
          · exact hbits.2
        have hABsq : path_to_global s.current_player (mi.from_pos - 1) ≠
            path_to_global s.current_player (mi.to_pos - 1) := by
          intro heq
          rw [heq] at hbitA
          rw [hbitA] at hbitB
          simp at hbitB
        exact roundtrip_case3_nocap s piece mi hwf hp hpi hfrom h1 h14 hto1 hto14 hval
          hABsq hbitA hbitB
      · -- capture
        obtain ⟨hopp, hsafe, hcapf⟩ := hval
        have hsqB20 : path_to_global s.current_player (mi.to_pos - 1) < 20 :=
          path_to_global_lt_20 _ _ (by omega)
        have hbitC : s.occupied_squares.testBit (path_to_global s.current_player
            (mi.to_pos - 1) + playerOffset s.current_player.opposite) = true := by
          have := occupant_bit s _ occ hocc
          rwa [hopp] at this
        have hbitB : s.occupied_squares.testBit (path_to_global s.current_player
            (mi.to_pos - 1) + playerOffset s.current_player) = false :=
          own_bit_false_of_occupant_opp s _ s.current_player hsqB20 hwf.one_per_square
            (hopp ▸ hocc)
        have hag := (hwf.agree s.current_player.opposite _ hsqB20).mp hbitC
        obtain ⟨c, hcf, hc7, hc1, hc14, hcpath⟩ := find_captured_spec s
          s.current_player.opposite _ (by
            obtain ⟨i, hi7, hion⟩ := hag
            exact ⟨i, hi7, hion.1, hion.2.1, hion.2.2⟩)
        rw [hcf] at hcapf
        have hABsq : path_to_global s.current_player (mi.from_pos - 1) ≠
            path_to_global s.current_player (mi.to_pos - 1) := by
          intro heq
          rw [heq] at hbitA
          rw [hbitA] at hbitB
          simp at hbitB
        exact roundtrip_case3_cap s piece c mi hwf hp hc7 hpi hfrom h1 h14 hto1 hto14
          hcapf hc1 hc14 hcpath hABsq hbitA hbitB hbitC

/-! ### Effect characterization of `apply_move_internal` -/

theorem current_player_occ_update (s : FastGameState) (x : Nat) :
    (FastGameState.mk x s.piece_positions s.scores_and_turn).current_player =
      s.current_player := rfl

theorem current_player_set_piece_pos (s : FastGameState) (pl : FastPlayer) (i v : Nat) :
    (s.set_piece_pos pl i v).current_player = s.current_player := rfl

theorem get_score_set_piece (X : FastGameState) (pl' : FastPlayer) (i v : Nat)
    (pl : FastPlayer) : (X.set_piece_pos pl' i v).get_score pl = X.get_score pl :=
  get_score_set_piece_pos X pl' i v pl

/-- Effect of `apply_move_internal` on the occupancy bitboard. -/
theorem apply_move_occ (s : FastGameState) (mi : MoveInfo) :
    (s.apply_move_internal s.current_player mi).occupied_squares =
      (let o1 := if 1 ≤ mi.from_pos ∧ mi.from_pos ≤ 14 then
          clearBitU64 s.occupied_squares (path_to_global s.current_player (mi.from_pos - 1) +
            playerOffset s.current_player) else s.occupied_squares
      let o2 := match mi.captured_piece with
        | some c => clearBitU64 o1 (path_to_global s.current_player.opposite
            (s.get_piece_pos s.current_player.opposite c - 1) +
            playerOffset s.current_player.opposite)
        | none => o1
      if 1 ≤ mi.to_pos ∧ mi.to_pos ≤ 14 then
        setBitU64 o2 (path_to_global s.current_player (mi.to_pos - 1) +
          playerOffset s.current_player) else o2) := by
  rcases hc : mi.captured_piece with _ | c <;>
    by_cases hf : 1 ≤ mi.from_pos ∧ mi.from_pos ≤ 14 <;>
    by_cases ht : 1 ≤ mi.to_pos ∧ mi.to_pos ≤ 14 <;>
    by_cases h15 : mi.to_pos = 15 <;>
    cases he : mi.extra_turn <;>
    simp only [apply_move_internal, hc, hf, ht, h15, he, if_true, if_false,
      get_piece_pos_occ_update, set_piece_pos_occ, set_score_occ, flip_turn_occ,
      Bool.not_true, Bool.not_false, ite_occ, ite_self, if_neg, if_pos] <;>
    simp [hf, ht, h15, get_piece_pos_occ_update]

/-- Effect of `apply_move_internal` on the packed position word. -/
theorem apply_move_pp (s : FastGameState) (mi : MoveInfo) :
    (s.apply_move_internal s.current_player mi).piece_positions =
      ((match mi.captured_piece with
        | some c => s.set_piece_pos s.current_player.opposite c 0
        | none => s).set_piece_pos s.current_player mi.piece_idx
          mi.to_pos).piece_positions := by
  rcases hc : mi.captured_piece with _ | c <;>
    by_cases hf : 1 ≤ mi.from_pos ∧ mi.from_pos ≤ 14 <;>
    by_cases ht : 1 ≤ mi.to_pos ∧ mi.to_pos ≤ 14 <;>
    by_cases h15 : mi.to_pos = 15 <;>
    cases he : mi.extra_turn <;>
    simp only [apply_move_internal, hc, hf, ht, h15, he, if_true, if_false,
      Bool.not_true, Bool.not_false, ite_pp, ite_self, set_piece_pos_pp,
      set_score_pp, flip_turn_pp] <;>
    simp [hf, ht, h15]

/-- Effect of `apply_move_internal` on individual piece positions. -/
theorem apply_move_get (s : FastGameState) (mi : MoveInfo) (pl' : FastPlayer) (i : Nat)
    (hi : i < 7) (hpk : mi.piece_idx < 7) (hto16 : mi.to_pos < 16)
    (hcap7 : ∀ c, mi.captured_piece = some c → c < 7) :
    (s.apply_move_internal s.current_player mi).get_piece_pos pl' i =
      (if pl' = s.current_player ∧ i = mi.piece_idx then mi.to_pos
      else match mi.captured_piece with
        | some c => if pl' = s.current_player.opposite ∧ i = c then 0
            else s.get_piece_pos pl' i
        | none => s.get_piece_pos pl' i) := by
  rw [get_piece_pos_congr _ _ pl' i (apply_move_pp s mi)]
  rcases hc : mi.captured_piece with _ | c
  · by_cases hk : pl' = s.current_player ∧ i = mi.piece_idx
    · obtain ⟨hk1, hk2⟩ := hk
      subst hk1; subst hk2
      rw [get_set_same _ _ _ _ hpk hto16, if_pos ⟨rfl, rfl⟩]
    · rw [get_set_ne _ _ _ _ _ _ hi hpk (by tauto), if_neg hk]
  · have hc7 := hcap7 c hc
    by_cases hk : pl' = s.current_player ∧ i = mi.piece_idx
    · obtain ⟨hk1, hk2⟩ := hk
      subst hk1; subst hk2
      rw [get_set_same _ _ _ _ hpk hto16, if_pos ⟨rfl, rfl⟩]
    · rw [get_set_ne _ _ _ _ _ _ hi hpk (by tauto), if_neg hk]
      simp only []
      by_cases hoc : pl' = s.current_player.opposite ∧ i = c
      · obtain ⟨ho1, ho2⟩ := hoc
        subst ho1; subst ho2
        rw [get_set_same _ _ _ _ hc7 (by norm_num), if_pos ⟨rfl, rfl⟩]
      · rw [get_set_ne _ _ _ _ _ _ hi hc7 (by tauto), if_neg hoc]

/-- Effect of `apply_move_internal` on scores. -/
theorem apply_move_get_score (s : FastGameState) (mi : MoveInfo) (pl' : FastPlayer)
    (hsc : s.get_score s.current_player ≤ 6) :
    (s.apply_move_internal s.current_player mi).get_score pl' =
      (if mi.to_pos = 15 ∧ pl' = s.current_player then s.get_score s.current_player + 1
      else s.get_score pl') := by
  rcases hc : mi.captured_piece with _ | c <;>
    by_cases hf : 1 ≤ mi.from_pos ∧ mi.from_pos ≤ 14 <;>
    by_cases ht : 1 ≤ mi.to_pos ∧ mi.to_pos ≤ 14 <;>
    by_cases h15 : mi.to_pos = 15 <;>
    cases he : mi.extra_turn <;>
    simp only [apply_move_internal, hc, hf, ht, h15, he, if_true, if_false,
      Bool.not_true, Bool.not_false, ite_self] <;>
    by_cases hpl : pl' = s.current_player
  all_goals
    simp only [hpl, h15, show ((1 : Nat) ≤ 15 ∧ (15 : Nat) ≤ 14) = False by simp,
      show ((false : Bool) = true) = False by simp,
      show ((true : Bool) = true) = True by simp,
      get_score_flip_turn, get_score_set_piece, get_score_occ_update,
      if_true, if_false, and_true, and_false, true_and, false_and]
  all_goals try (exfalso; omega)
  all_goals try rfl
  all_goals try (rw [get_score_set_score_same]; omega)
  all_goals try rw [get_score_set_score_ne _ _ _ _ (by exact hpl)]
  all_goals simp only [get_score_set_piece, get_score_occ_update]

/-- Effect of `apply_move_internal` on the active player. -/
theorem apply_move_current_player (s : FastGameState) (mi : MoveInfo) :
    (s.apply_move_internal s.current_player mi).current_player =
      (if mi.extra_turn = true then s.current_player else s.current_player.opposite) := by
  rcases hc : mi.captured_piece with _ | c <;>
    by_cases hf : 1 ≤ mi.from_pos ∧ mi.from_pos ≤ 14 <;>
    by_cases ht : 1 ≤ mi.to_pos ∧ mi.to_pos ≤ 14 <;>
    by_cases h15 : mi.to_pos = 15 <;>
    cases he : mi.extra_turn <;>
    simp only [apply_move_internal, hc, hf, ht, h15, he, if_true, if_false,
      Bool.not_true, Bool.not_false, ite_self, current_player_flip_turn,
      current_player_set_score, current_player_set_piece_pos, current_player_occ_update] <;>
    simp [current_player_flip_turn, current_player_set_score, current_player_set_piece_pos,
      current_player_occ_update]

theorem path_to_global_lt_20_all (pl : FastPlayer) (i : Nat) : path_to_global pl i < 20 := by
  by_cases h : i < 14
  · exact path_to_global_lt_20 pl i h
  · unfold path_to_global
    rw [List.getD_eq_default]
    · norm_num
    · cases pl <;> simp [PATHS] <;> omega

theorem playerOffset_le_20 (pl : FastPlayer) : playerOffset pl ≤ 20 := by
  cases pl <;> simp [playerOffset]

theorem find_captured_lt_7 (s : FastGameState) (opp : FastPlayer) (target c : Nat)
    (h : find_captured s opp target = some c) : c < 7 := by
  unfold find_captured at h
  have := List.mem_of_find?_eq_some h
  simpa [List.mem_range] using this

theorem apply_move_occ_lt (s : FastGameState) (mi : MoveInfo)
    (h : s.occupied_squares < 2 ^ 40) :
    (s.apply_move_internal s.current_player mi).occupied_squares < 2 ^ 40 := by
  rw [apply_move_occ]
  rcases mi.captured_piece with _ | c <;>
    by_cases hf : 1 ≤ mi.from_pos ∧ mi.from_pos ≤ 14 <;>
    by_cases ht : 1 ≤ mi.to_pos ∧ mi.to_pos ≤ 14 <;>
    simp only [hf, ht, if_true, if_false] <;>
    first
      | (apply setBitU64_lt _ _ _ (clearBitU64_lt _ _ _ (clearBitU64_lt _ _ _ h))
          (by have := path_to_global_lt_20_all s.current_player (mi.to_pos - 1)
              have := playerOffset_le_20 s.current_player
              omega))
      | (apply setBitU64_lt _ _ _ (clearBitU64_lt _ _ _ h)
          (by have := path_to_global_lt_20_all s.current_player (mi.to_pos - 1)
              have := playerOffset_le_20 s.current_player
              omega))
      | (apply setBitU64_lt _ _ _ h
          (by have := path_to_global_lt_20_all s.current_player (mi.to_pos - 1)
              have := playerOffset_le_20 s.current_player
              omega))
      | exact clearBitU64_lt _ _ _ (clearBitU64_lt _ _ _ h)
      | exact clearBitU64_lt _ _ _ h
      | exact h
      | simp [hf, ht]

theorem apply_move_pp_lt (s : FastGameState) (mi : MoveInfo)
    (h : s.piece_positions < 2 ^ 56) (hpk : mi.piece_idx < 7)
    (hcap7 : ∀ c, mi.captured_piece = some c → c < 7) :
    (s.apply_move_internal s.current_player mi).piece_positions < 2 ^ 56 := by
  rw [apply_move_pp]
  rcases hc : mi.captured_piece with _ | c
  · exact set_piece_pos_pp_lt _ _ _ _ hpk h
  · exact set_piece_pos_pp_lt _ _ _ _ hpk
      (set_piece_pos_pp_lt _ _ _ _ (hcap7 c hc) h)

theorem apply_move_st_lt (s : FastGameState) (mi : MoveInfo)
    (h : s.scores_and_turn < 2 ^ 7) :
    (s.apply_move_internal s.current_player mi).scores_and_turn < 2 ^ 7 := by
  rcases hc : mi.captured_piece with _ | c <;>
    by_cases hf : 1 ≤ mi.from_pos ∧ mi.from_pos ≤ 14 <;>
    by_cases ht : 1 ≤ mi.to_pos ∧ mi.to_pos ≤ 14 <;>
    by_cases h15 : mi.to_pos = 15 <;>
    cases he : mi.extra_turn <;>
    simp only [apply_move_internal, hc, hf, ht, h15, he, if_true, if_false,
      Bool.not_true, Bool.not_false, ite_self,
      show ((false : Bool) = true) = False by simp,
      show ((true : Bool) = true) = True by simp] <;>
    first
      | exact h
      | exact flip_turn_st_lt _ h
      | exact set_score_st_lt _ _ _ h
      | exact flip_turn_st_lt _ (set_score_st_lt _ _ _ h)
      | simp [hf, ht, h15]

/-- Unified single-bit description of the occupancy board after a move: bit `j` is set
iff it was set before and is neither the vacated bit nor the captured opponent bit,
or it is the newly occupied destination bit. -/
theorem apply_move_occ_testBit (s : FastGameState) (mi : MoveInfo) (j : Nat)
    (hocc64 : s.occupied_squares < 2 ^ 64)
    (hcapsq : ∀ c, mi.captured_piece = some c →
      path_to_global s.current_player.opposite
        (s.get_piece_pos s.current_player.opposite c - 1) =
      path_to_global s.current_player (mi.to_pos - 1)) :
    ((s.apply_move_internal s.current_player mi).occupied_squares.testBit j = true ↔
      ((s.occupied_squares.testBit j = true ∧
        ¬((1 ≤ mi.from_pos ∧ mi.from_pos ≤ 14) ∧
          j = path_to_global s.current_player (mi.from_pos - 1) +
            playerOffset s.current_player) ∧
        ¬(mi.captured_piece.isSome = true ∧
          j = path_to_global s.current_player (mi.to_pos - 1) +
            playerOffset s.current_player.opposite)) ∨
       ((1 ≤ mi.to_pos ∧ mi.to_pos ≤ 14) ∧
        j = path_to_global s.current_player (mi.to_pos - 1) +
          playerOffset s.current_player))) := by
  have hA64 : path_to_global s.current_player (mi.from_pos - 1) +
      playerOffset s.current_player < 64 := by
    have := path_to_global_lt_20_all s.current_player (mi.from_pos - 1)
    have := playerOffset_le_20 s.current_player
    omega
  have hC64 : path_to_global s.current_player (mi.to_pos - 1) +
      playerOffset s.current_player.opposite < 64 := by
    have := path_to_global_lt_20_all s.current_player (mi.to_pos - 1)
    have := playerOffset_le_20 s.current_player.opposite
    omega
  have hjt : s.occupied_squares.testBit j = true → j < 64 := by
    intro hb
    by_contra hn
    rw [testBit_false_of_ge _ _ 64 hocc64 (by omega)] at hb
    exact Bool.noConfusion hb
  rw [apply_move_occ]
  rcases hc : mi.captured_piece with _ | c <;>
    by_cases hf : 1 ≤ mi.from_pos ∧ mi.from_pos ≤ 14 <;>
    by_cases ht : 1 ≤ mi.to_pos ∧ mi.to_pos ≤ 14 <;>
    simp only [hc, hf, ht, and_self, if_true, if_false, Option.isSome_none,
      Option.isSome_some]
  · rw [testBit_setBitU64, testBit_clearBitU64 _ _ _ hA64]
    simp [hf, ht]
    try tauto
  · rw [testBit_clearBitU64 _ _ _ hA64]
    simp [hf, ht]
    try tauto
  · rw [testBit_setBitU64]
    simp [hf, ht]
    try tauto
  · simp [hf, ht]
    try tauto
  · rw [hcapsq c hc, testBit_setBitU64, testBit_clearBitU64 _ _ _ hC64,
      testBit_clearBitU64 _ _ _ hA64]
    simp [hf, ht]
    try tauto
  · rw [hcapsq c hc, testBit_clearBitU64 _ _ _ hC64, testBit_clearBitU64 _ _ _ hA64]
    simp [hf, ht]
    try tauto
  · rw [hcapsq c hc, testBit_setBitU64, testBit_clearBitU64 _ _ _ hC64]
    simp [hf, ht]
    try tauto
  · rw [hcapsq c hc, testBit_clearBitU64 _ _ _ hC64]
    simp [hf, ht]
    try tauto

theorem capsq_of_movefacts (s : FastGameState) (mi : MoveInfo) (mf : MoveFacts s mi) :
    ∀ c, mi.captured_piece = some c →
      path_to_global s.current_player.opposite
        (s.get_piece_pos s.current_player.opposite c - 1) =
      path_to_global s.current_player (mi.to_pos - 1) :=
  fun c hc => ((mf.capfacts c hc).2.2.2.1)

theorem offset_dichotomy (s : FastGameState) :
    (playerOffset s.current_player = 0 ∧ playerOffset s.current_player.opposite = 20) ∨
    (playerOffset s.current_player = 20 ∧ playerOffset s.current_player.opposite = 0) := by
  cases s.current_player <;> simp [playerOffset, FastPlayer.opposite]

theorem wf_apply_one_per (s : FastGameState) (mi : MoveInfo) (hwf : WF s)
    (mf : MoveFacts s mi) : ∀ sq < 20,
    ¬((s.apply_move_internal s.current_player mi).occupied_squares.testBit sq ∧
      (s.apply_move_internal s.current_player mi).occupied_squares.testBit (sq + 20)) := by
  intro sq hsq hcon
  obtain ⟨hb1, hb2⟩ := hcon
  have hocc64 : s.occupied_squares < 2 ^ 64 := lt_trans hwf.occ_lt (by norm_num)
  rw [apply_move_occ_testBit s mi sq hocc64 (capsq_of_movefacts s mi mf)] at hb1
  rw [apply_move_occ_testBit s mi (sq + 20) hocc64 (capsq_of_movefacts s mi mf)] at hb2
  have hsqBlt : (1 ≤ mi.to_pos ∧ mi.to_pos ≤ 14) →
      path_to_global s.current_player (mi.to_pos - 1) < 20 :=
    fun hT => path_to_global_lt_20 _ _ (by omega)
  rcases hb1 with ⟨ho1, hnA1, hnC1⟩ | ⟨hT1, hB1⟩ <;>
    rcases hb2 with ⟨ho2, hnA2, hnC2⟩ | ⟨hT2, hB2⟩
  · exact hwf.one_per_square sq hsq ⟨ho1, ho2⟩
  · have hlt := hsqBlt hT2
    rcases offset_dichotomy s with ⟨hoff, hoppoff⟩ | ⟨hoff, hoppoff⟩
    · rw [hoff] at hB2
      omega
    · rw [hoff] at hB2
      have hcapn : mi.captured_piece = none := by
        rcases hcc : mi.captured_piece with _ | c
        · rfl
        · exact absurd (hnC1 ⟨by simp [hcc], by rw [hoppoff]; omega⟩) (by simp)
      have hfalse := mf.bitB_opp_none hT2 hcapn
      rw [hoppoff, show path_to_global s.current_player (mi.to_pos - 1) + 0 = sq by
        omega] at hfalse
      rw [ho1] at hfalse
      exact absurd hfalse (by simp)
  · have hlt := hsqBlt hT1
    rcases offset_dichotomy s with ⟨hoff, hoppoff⟩ | ⟨hoff, hoppoff⟩
    · rw [hoff] at hB1
      have hcapn : mi.captured_piece = none := by
        rcases hcc : mi.captured_piece with _ | c
        · rfl
        · exact absurd (hnC2 ⟨by simp [hcc], by rw [hoppoff]; omega⟩) (by simp)
      have hfalse := mf.bitB_opp_none hT1 hcapn
      rw [hoppoff, show path_to_global s.current_player (mi.to_pos - 1) + 20 = sq + 20 by
        omega] at hfalse
      rw [ho2] at hfalse
      exact absurd hfalse (by simp)
    · rw [hoff] at hB1
      omega
  · have hlt := hsqBlt hT1
    rcases offset_dichotomy s with ⟨hoff, _⟩ | ⟨hoff, _⟩ <;> rw [hoff] at hB1 hB2 <;> omega

theorem notA_of_other (s : FastGameState) (mi : MoveInfo) (hwf : WF s)
    (mf : MoveFacts s mi) (pl' : FastPlayer) (sq i : Nat) (hsq : sq < 20) (hi7 : i < 7)
    (hon : onSquare s pl' i sq) (hne : ¬(pl' = s.current_player ∧ i = mi.piece_idx)) :
    ¬((1 ≤ mi.from_pos ∧ mi.from_pos ≤ 14) ∧
      sq + playerOffset pl' =
        path_to_global s.current_player (mi.from_pos - 1) +
          playerOffset s.current_player) := by
  rintro ⟨hF, hA⟩
  have hltA := path_to_global_lt_20 s.current_player (mi.from_pos - 1) (by omega)
  obtain ⟨hpe, hse⟩ := playerOffset_add_inj pl' s.current_player sq _ hsq hltA hA
  subst hpe
  have honp : onSquare s s.current_player mi.piece_idx sq :=
    ⟨by rw [mf.pos_piece]; exact hF.1, by rw [mf.pos_piece]; exact hF.2,
     by rw [mf.pos_piece]; exact hse.symm⟩
  exact hne ⟨rfl, hwf.no_stack s.current_player i hi7 mi.piece_idx mf.pk7
    ⟨hon.1, hon.2.1, honp.1, honp.2.1, hon.2.2.trans honp.2.2.symm⟩⟩

theorem wf_apply_agree (s : FastGameState) (mi : MoveInfo) (hwf : WF s)
    (mf : MoveFacts s mi) : ∀ pl' : FastPlayer, ∀ sq < 20,
    ((s.apply_move_internal s.current_player mi).occupied_squares.testBit
        (sq + playerOffset pl') ↔
      ∃ i < 7, onSquare (s.apply_move_internal s.current_player mi) pl' i sq) := by
  intro pl' sq hsq
  have hocc64 : s.occupied_squares < 2 ^ 64 := lt_trans hwf.occ_lt (by norm_num)
  have hget2 := fun (p : FastPlayer) (i : Nat) (hi : i < 7) =>
    apply_move_get s mi p i hi mf.pk7 mf.to16 (fun c hc => (mf.capfacts c hc).1)
  rw [apply_move_occ_testBit s mi (sq + playerOffset pl') hocc64
    (capsq_of_movefacts s mi mf)]
  constructor
  · rintro (⟨hold, hnA, hnC⟩ | ⟨hT, hjB⟩)
    · obtain ⟨i, hi7, hon⟩ := (hwf.agree pl' sq hsq).mp hold
      refine ⟨i, hi7, ?_⟩
      have hg := hget2 pl' i hi7
      by_cases hc1 : pl' = s.current_player ∧ i = mi.piece_idx
      · exfalso
        obtain ⟨hpl', hi⟩ := hc1
        subst hpl'; subst hi
        obtain ⟨h1, h2, h3⟩ := hon
        rw [mf.pos_piece] at h1 h2 h3
        exact hnA ⟨⟨h1, h2⟩, by rw [h3]⟩
      · rw [if_neg hc1] at hg
        rcases hcc : mi.captured_piece with _ | c
        · simp only [hcc] at hg
          exact ⟨by rw [hg]; exact hon.1, by rw [hg]; exact hon.2.1,
            by rw [hg]; exact hon.2.2⟩
        · simp only [hcc] at hg
          by_cases hc2 : pl' = s.current_player.opposite ∧ i = c
          · exfalso
            obtain ⟨hpl', hi⟩ := hc2
            subst hpl'; subst hi
            have hcf := mf.capfacts i hcc
            exact hnC ⟨by simp [hcc], by rw [← hcf.2.2.2.1, hon.2.2]⟩
          · rw [if_neg hc2] at hg
            exact ⟨by rw [hg]; exact hon.1, by rw [hg]; exact hon.2.1,
              by rw [hg]; exact hon.2.2⟩
    · have hlt := path_to_global_lt_20 s.current_player (mi.to_pos - 1) (by omega)
      obtain ⟨hpe, hse⟩ := playerOffset_add_inj pl' s.current_player sq _ hsq hlt hjB
      subst hpe
      refine ⟨mi.piece_idx, mf.pk7, ?_⟩
      have hg := hget2 s.current_player mi.piece_idx mf.pk7
      rw [if_pos ⟨rfl, rfl⟩] at hg
      exact ⟨by rw [hg]; exact hT.1, by rw [hg]; exact hT.2,
        by rw [hg]; exact hse.symm⟩
  · rintro ⟨i, hi7, hon2⟩
    obtain ⟨h1, h2, h3⟩ := hon2
    rw [hget2 pl' i hi7] at h1 h2 h3
    by_cases hc1 : pl' = s.current_player ∧ i = mi.piece_idx
    · rw [if_pos hc1] at h1 h2 h3
      obtain ⟨hpl', hi⟩ := hc1
      subst hpl'
      right
      exact ⟨⟨h1, h2⟩, by rw [h3]⟩
    · rw [if_neg hc1] at h1 h2 h3
      rcases hcc : mi.captured_piece with _ | c
      · simp only [hcc] at h1 h2 h3
        exact Or.inl ⟨(hwf.agree pl' sq hsq).mpr ⟨i, hi7, h1, h2, h3⟩,
          notA_of_other s mi hwf mf pl' sq i hsq hi7 ⟨h1, h2, h3⟩ hc1,
          by rintro ⟨hcs, -⟩; simp [hcc] at hcs⟩
      · simp only [hcc] at h1 h2 h3
        by_cases hc2 : pl' = s.current_player.opposite ∧ i = c
        · rw [if_pos hc2] at h1
          exact absurd h1 (by omega)
        · rw [if_neg hc2] at h1 h2 h3
          refine Or.inl ⟨(hwf.agree pl' sq hsq).mpr ⟨i, hi7, h1, h2, h3⟩,
            notA_of_other s mi hwf mf pl' sq i hsq hi7 ⟨h1, h2, h3⟩ hc1, ?_⟩
          rintro ⟨-, hC⟩
          have hcf := mf.capfacts c hcc
          have hltB := path_to_global_lt_20 s.current_player (mi.to_pos - 1)
            (by have := hcf.2.2.2.2; omega)
          obtain ⟨hpe, hse⟩ :=
            playerOffset_add_inj pl' s.current_player.opposite sq _ hsq hltB hC
          subst hpe
          have honc : onSquare s s.current_player.opposite c sq :=
            ⟨hcf.2.1, hcf.2.2.1, by rw [hcf.2.2.2.1]; exact hse.symm⟩
          exact hc2 ⟨rfl, hwf.no_stack s.current_player.opposite i hi7 c hcf.1
            ⟨h1, h2, honc.1, honc.2.1, h3.trans honc.2.2.symm⟩⟩

theorem no_old_on_destination (s : FastGameState) (mi : MoveInfo) (hwf : WF s)
    (mf : MoveFacts s mi) (j : Nat) (hj7 : j < 7)
    (hT : 1 ≤ mi.to_pos ∧ mi.to_pos ≤ 14)
    (h1j : 1 ≤ s.get_piece_pos s.current_player j)
    (h2j : s.get_piece_pos s.current_player j ≤ 14)
    (hpathj : path_to_global s.current_player
        (s.get_piece_pos s.current_player j - 1) =
      path_to_global s.current_player (mi.to_pos - 1)) : False := by
  have hsqB : path_to_global s.current_player (mi.to_pos - 1) < 20 :=
    path_to_global_lt_20 _ _ (by omega)
  have hbit := (hwf.agree s.current_player _ hsqB).mpr ⟨j, hj7, h1j, h2j, hpathj⟩
  rw [mf.bitB_own hT] at hbit
  exact Bool.noConfusion hbit

theorem wf_apply_no_stack (s : FastGameState) (mi : MoveInfo) (hwf : WF s)
    (mf : MoveFacts s mi) : ∀ pl' : FastPlayer, ∀ i < 7, ∀ j < 7,
    (1 ≤ (s.apply_move_internal s.current_player mi).get_piece_pos pl' i ∧
     (s.apply_move_internal s.current_player mi).get_piece_pos pl' i ≤ 14 ∧
     1 ≤ (s.apply_move_internal s.current_player mi).get_piece_pos pl' j ∧
     (s.apply_move_internal s.current_player mi).get_piece_pos pl' j ≤ 14 ∧
     path_to_global pl'
        ((s.apply_move_internal s.current_player mi).get_piece_pos pl' i - 1) =
       path_to_global pl'
        ((s.apply_move_internal s.current_player mi).get_piece_pos pl' j - 1)) →
    i = j := by
  have hget2 := fun (p : FastPlayer) (i : Nat) (hi : i < 7) =>
    apply_move_get s mi p i hi mf.pk7 mf.to16 (fun c hc => (mf.capfacts c hc).1)
  intro pl' i hi7 j hj7 hcon
  obtain ⟨h1i, h2i, h1j, h2j, hpath⟩ := hcon
  rw [hget2 pl' i hi7] at h1i h2i hpath
  rw [hget2 pl' j hj7] at h1j h2j hpath
  by_cases hci : pl' = s.current_player ∧ i = mi.piece_idx <;>
    by_cases hcj : pl' = s.current_player ∧ j = mi.piece_idx
  · exact hci.2.trans hcj.2.symm
  · exfalso
    rw [if_pos hci] at h1i h2i hpath
    rw [if_neg hcj] at h1j h2j hpath
    obtain ⟨hpl', -⟩ := hci
    subst hpl'
    rcases hcc : mi.captured_piece with _ | c
    · simp only [hcc] at h1j h2j hpath
      exact no_old_on_destination s mi hwf mf j hj7 ⟨h1i, h2i⟩ h1j h2j hpath.symm
    · simp only [hcc] at h1j h2j hpath
      by_cases hc2 : s.current_player = s.current_player.opposite ∧ j = c
      · exact FastPlayer.opposite_ne s.current_player hc2.1.symm
      · rw [if_neg hc2] at h1j h2j hpath
        exact no_old_on_destination s mi hwf mf j hj7 ⟨h1i, h2i⟩ h1j h2j hpath.symm
  · exfalso
    rw [if_pos hcj] at h1j h2j hpath
    rw [if_neg hci] at h1i h2i hpath
    obtain ⟨hpl', -⟩ := hcj
    subst hpl'
    rcases hcc : mi.captured_piece with _ | c
    · simp only [hcc] at h1i h2i hpath
      exact no_old_on_destination s mi hwf mf i hi7 ⟨h1j, h2j⟩ h1i h2i hpath
    · simp only [hcc] at h1i h2i hpath
      by_cases hc2 : s.current_player = s.current_player.opposite ∧ i = c
      · exact FastPlayer.opposite_ne s.current_player hc2.1.symm
      · rw [if_neg hc2] at h1i h2i hpath
        exact no_old_on_destination s mi hwf mf i hi7 ⟨h1j, h2j⟩ h1i h2i hpath
  · rw [if_neg hci] at h1i h2i hpath
    rw [if_neg hcj] at h1j h2j hpath
    rcases hcc : mi.captured_piece with _ | c
    · simp only [hcc] at h1i h2i h1j h2j hpath
      exact hwf.no_stack pl' i hi7 j hj7 ⟨h1i, h2i, h1j, h2j, hpath⟩
    · simp only [hcc] at h1i h2i h1j h2j hpath
      by_cases hc2i : pl' = s.current_player.opposite ∧ i = c
      · rw [if_pos hc2i] at h1i
        exact absurd h1i (by omega)
      · rw [if_neg hc2i] at h1i h2i hpath
        by_cases hc2j : pl' = s.current_player.opposite ∧ j = c
        · rw [if_pos hc2j] at h1j
          exact absurd h1j (by omega)
        · rw [if_neg hc2j] at h1j h2j hpath
          exact hwf.no_stack pl' i hi7 j hj7 ⟨h1i, h2i, h1j, h2j, hpath⟩

theorem wf_apply_score (s : FastGameState) (mi : MoveInfo) (hwf : WF s)
    (mf : MoveFacts s mi) : ∀ pl' : FastPlayer,
    (s.apply_move_internal s.current_player mi).get_score pl' =
      ((List.range 7).filter fun i =>
        (s.apply_move_internal s.current_player mi).get_piece_pos pl' i == 15).length := by
  have hget2 := fun (p : FastPlayer) (i : Nat) (hi : i < 7) =>
    apply_move_get s mi p i hi mf.pk7 mf.to16 (fun c hc => (mf.capfacts c hc).1)
  intro pl'
  have hsc : s.get_score s.current_player ≤ 6 :=
    score_le_6_of_piece_on_board s _ mi.piece_idx mf.pk7
      (hwf.score_finished _) (by rw [mf.pos_piece]; exact mf.from_le)
  rw [apply_move_get_score s mi pl' hsc]
  by_cases hplc : pl' = s.current_player
  · subst hplc
    have hagreefun : ∀ i < 7, i ≠ mi.piece_idx →
        ((s.apply_move_internal s.current_player mi).get_piece_pos
          s.current_player i == 15) = (s.get_piece_pos s.current_player i == 15) := by
      intro i hi hne
      rw [hget2 s.current_player i hi, if_neg (fun hh => hne hh.2)]
      rcases hcc : mi.captured_piece with _ | c
      · simp only [hcc]
      · simp only [hcc]
        rw [if_neg (fun hh => FastPlayer.opposite_ne s.current_player hh.1.symm)]
    have hkey := filter_range_length_update
      (fun i => (s.apply_move_internal s.current_player mi).get_piece_pos
        s.current_player i == 15)
      (fun i => s.get_piece_pos s.current_player i == 15) mi.piece_idx 7 mf.pk7
      hagreefun
    simp only [] at hkey
    have hp2 : ((s.apply_move_internal s.current_player mi).get_piece_pos
        s.current_player mi.piece_idx == 15) = (mi.to_pos == 15) := by
      rw [hget2 s.current_player mi.piece_idx mf.pk7, if_pos ⟨rfl, rfl⟩]
    have hp1 : (s.get_piece_pos s.current_player mi.piece_idx == 15) = false := by
      rw [mf.pos_piece, beq_eq_false_iff_ne]
      have := mf.from_le
      omega
    simp only [hp1, hp2, if_false, Bool.false_eq_true] at hkey
    rw [hwf.score_finished s.current_player]
    by_cases h15 : mi.to_pos = 15
    · rw [if_pos ⟨h15, rfl⟩]
      rw [h15] at hkey
      simp only [show ((15 : Nat) == 15) = true from rfl, if_true, if_false] at hkey
      omega
    · rw [if_neg (fun hh => h15 hh.1)]
      rw [show ((mi.to_pos == 15) = false) from by rw [beq_eq_false_iff_ne]; exact h15]
        at hkey
      simp at hkey
      omega
  · rw [if_neg (fun hh => hplc hh.2), hwf.score_finished pl']
    apply filter_range_length_congr
    intro i hi
    rw [hget2 pl' i hi, if_neg (fun hh => hplc hh.1)]
    rcases hcc : mi.captured_piece with _ | c
    · simp only [hcc]
    · simp only [hcc]
      by_cases hc2 : pl' = s.current_player.opposite ∧ i = c
      · rw [if_pos hc2]
        obtain ⟨hpe, hie⟩ := hc2
        subst hie
        have hle := (mf.capfacts i hcc).2.2.1
        rw [hpe, show ((0 : Nat) == 15) = false from rfl, beq_eq_false_iff_ne]
        omega
      · rw [if_neg hc2]

/-- A successful `make_move` from a well-formed state yields a well-formed state. -/
theorem WF_apply_of_make (s : FastGameState) (piece roll : Nat) (mi : MoveInfo)
    (s2 : FastGameState) (hwf : WF s) (hp : piece < 7)
    (h : s.make_move piece roll = some (mi, s2)) : WF s2 := by
  have mf := make_facts hwf hp h
  obtain ⟨-, -, hs2, -, -, -⟩ := make_move_some_elim h
  subst hs2
  exact ⟨apply_move_occ_lt s mi hwf.occ_lt,
    apply_move_pp_lt s mi hwf.pp_lt mf.pk7 (fun c hc => (mf.capfacts c hc).1),
    apply_move_st_lt s mi hwf.st_lt,
    wf_apply_one_per s mi hwf mf,
    wf_apply_agree s mi hwf mf,
    wf_apply_no_stack s mi hwf mf,
    wf_apply_score s mi hwf mf⟩

theorem mem_generate_moves_lt_7 (s : FastGameState) (roll piece : Nat)
    (h : piece ∈ s.generate_moves roll) : piece < 7 := by
  unfold generate_moves at h
  by_cases h0 : roll = 0
  · rw [if_pos h0] at h
    simp at h
  · rw [if_neg h0] at h
    simpa [List.mem_range] using List.mem_of_mem_filter h

end FastGameState

/-- States reachable from the fresh game through generator-validated `make_move`
steps and `unmake_move` of a just-made move. -/
inductive Reachable : FastGameState → Prop where
  | init : Reachable FastGameState.new
  | make (s : FastGameState) (roll piece : Nat) (mi : MoveInfo) (s2 : FastGameState) :
      Reachable s → piece ∈ s.generate_moves roll →
      s.make_move piece roll = some (mi, s2) → Reachable s2
  | unmake (s : FastGameState) (roll piece : Nat) (mi : MoveInfo) (s2 : FastGameState) :
      Reachable s → piece ∈ s.generate_moves roll →
      s.make_move piece roll = some (mi, s2) →
      Reachable (s2.unmake_move s.current_player mi)

theorem Reachable.wf {s : FastGameState} (hr : Reachable s) : WF s := by
  induction hr with
  | init => decide
  | make s roll piece mi s2 hr hmem hmk ih =>
    exact FastGameState.WF_apply_of_make s piece roll mi s2 ih
      (FastGameState.mem_generate_moves_lt_7 s roll piece hmem) hmk
  | unmake s roll piece mi s2 hr hmem hmk ih =>
    rw [FastGameState.unmake_after_make s piece roll mi s2 ih
      (FastGameState.mem_generate_moves_lt_7 s roll piece hmem) hmk]
    exact ih

namespace FastGameState

/-! ### Claim theorems: game engine -/

/-- C1: for every well-formed state and every move legally applied by `make_move`
(any piece and roll for which it returns an effect record), immediately calling
`unmake_move` with the same player and that record reproduces the exact prior
state: all three packed fields — hence every occupancy bit, every position code,
both scores and the active player — are identical. -/
theorem make_unmake_roundtrip (s : FastGameState) (piece roll : Nat) (mi : MoveInfo)
    (s2 : FastGameState) (hwf : WF s) (hp : piece < 7)
    (h : s.make_move piece roll = some (mi, s2)) :
    s2.unmake_move s.current_player mi = s :=
  unmake_after_make s piece roll mi s2 hwf hp h

theorem make_unmake_roundtrip_witness :
    WF FastGameState.new ∧ (0 : Nat) < 7 ∧
    FastGameState.new.make_move 0 1 =
      some (⟨0, 0, 1, none, false⟩, (⟨8, 1, 64⟩ : FastGameState)) ∧
    (⟨8, 1, 64⟩ : FastGameState).unmake_move FastGameState.new.current_player
      ⟨0, 0, 1, none, false⟩ = FastGameState.new :=
  ⟨by decide, by decide, by decide,
   make_unmake_roundtrip FastGameState.new 0 1 ⟨0, 0, 1, none, false⟩
     ⟨8, 1, 64⟩ (by decide) (by decide) (by decide)⟩

/-- C2 counterexample: in the well-formed state with the mover's piece 0 at
position code 14 (path index 13), roll 2 overshoots (13 + 2 = 15 > 14), yet
`make_move` does NOT fail: it succeeds and finishes the piece (to_pos = 15),
mutating the state.  The claim's "performs no mutation and reports failure" is
false for `make_move` taken alone. -/
theorem overshoot_counterexample :
    WF (⟨2 ^ 4, 14, 0⟩ : FastGameState) ∧
    (⟨2 ^ 4, 14, 0⟩ : FastGameState).make_move 0 2 =
      some (⟨0, 14, 15, none, false⟩, ⟨0, 15, 65⟩) := by
  exact ⟨by decide, by decide⟩

/-- C2 (amended): an overshoot (on-board path index p with p + roll > 14) is
omitted by `generate_moves`, so it yields no legal move through the generator —
but `make_move` itself accepts it and finishes the piece (to_pos = 15). -/
theorem overshoot_amended (s : FastGameState) (piece roll : Nat) (hp : piece < 7)
    (h1 : 1 ≤ s.get_piece_pos s.current_player piece)
    (h14 : s.get_piece_pos s.current_player piece ≤ 14)
    (hover : 14 < s.get_piece_pos s.current_player piece - 1 + roll) :
    piece ∉ s.generate_moves roll ∧
    ∃ mi s2, s.make_move piece roll = some (mi, s2) ∧ mi.to_pos = 15 ∧
      s2.get_piece_pos s.current_player piece = 15 := by
  constructor
  · unfold generate_moves
    rw [if_neg (show ¬roll = 0 by omega)]
    intro hmem
    obtain ⟨-, hpred⟩ := List.mem_filter.mp hmem
    simp only [] at hpred
    rw [if_neg (show ¬s.get_piece_pos s.current_player piece = 0 by omega),
      if_pos ⟨h1, h14⟩,
      if_neg (show ¬s.get_piece_pos s.current_player piece - 1 + roll = 14 by omega),
      if_neg (show ¬s.get_piece_pos s.current_player piece - 1 + roll < 14 by omega)]
      at hpred
    exact Bool.noConfusion hpred
  · refine ⟨⟨piece, s.get_piece_pos s.current_player piece, 15, none, false⟩,
      s.apply_move_internal s.current_player
        ⟨piece, s.get_piece_pos s.current_player piece, 15, none, false⟩, ?_, rfl, ?_⟩
    · simp only [make_move]
      rw [if_neg (show ¬s.get_piece_pos s.current_player piece = 0 by omega),
        if_pos ⟨h1, h14⟩,
        if_pos (show 14 ≤ s.get_piece_pos s.current_player piece - 1 + roll by omega)]
      simp only []
      rw [if_neg (show ¬((1 : Nat) ≤ 15 ∧ (15 : Nat) ≤ 14) by omega)]
      simp only []
      rw [show (decide ((1 : Nat) ≤ 15 ∧ (15 : Nat) ≤ 14) &&
        is_rosette (path_to_global s.current_player (15 - 1))) = false by simp]
    · rw [apply_move_get s _ s.current_player piece hp hp (by norm_num)
        (fun c hc => by exact absurd hc (by simp)),
        if_pos ⟨rfl, rfl⟩]

theorem overshoot_amended_witness :
    (0 : Nat) < 7 ∧
    1 ≤ (⟨2 ^ 4, 14, 0⟩ : FastGameState).get_piece_pos
      (⟨2 ^ 4, 14, 0⟩ : FastGameState).current_player 0 ∧
    (⟨2 ^ 4, 14, 0⟩ : FastGameState).get_piece_pos
      (⟨2 ^ 4, 14, 0⟩ : FastGameState).current_player 0 ≤ 14 ∧
    14 < (⟨2 ^ 4, 14, 0⟩ : FastGameState).get_piece_pos
      (⟨2 ^ 4, 14, 0⟩ : FastGameState).current_player 0 - 1 + 2 ∧
    (0 ∉ (⟨2 ^ 4, 14, 0⟩ : FastGameState).generate_moves 2 ∧
      ∃ mi s2, (⟨2 ^ 4, 14, 0⟩ : FastGameState).make_move 0 2 = some (mi, s2) ∧
        mi.to_pos = 15 ∧
        s2.get_piece_pos (⟨2 ^ 4, 14, 0⟩ : FastGameState).current_player 0 = 15) :=
  ⟨by decide, by decide, by decide, by decide,
   overshoot_amended ⟨2 ^ 4, 14, 0⟩ 0 2 (by decide) (by decide) (by decide) (by decide)⟩

/-- C5: when `make_move` lands on an on-board destination that is not safe and is
occupied by the opponent, some opponent piece standing on that square is reset to
off-board (position code 0, its occupancy bit for that square cleared), the effect
record reports it as captured, and neither player's score changes. -/
theorem capture_resets_opponent (s : FastGameState) (piece roll : Nat) (mi : MoveInfo)
    (s2 : FastGameState) (hwf : WF s) (hp : piece < 7)
    (h : s.make_move piece roll = some (mi, s2))
    (hT : 1 ≤ mi.to_pos ∧ mi.to_pos ≤ 14)
    (hocc : s.get_occupant (path_to_global s.current_player (mi.to_pos - 1)) =
      some s.current_player.opposite)
    (hsafe : is_safe (path_to_global s.current_player (mi.to_pos - 1)) = false) :
    ∃ c < 7, mi.captured_piece = some c ∧
      1 ≤ s.get_piece_pos s.current_player.opposite c ∧
      s.get_piece_pos s.current_player.opposite c ≤ 14 ∧
      path_to_global s.current_player.opposite
        (s.get_piece_pos s.current_player.opposite c - 1) =
        path_to_global s.current_player (mi.to_pos - 1) ∧
      s2.get_piece_pos s.current_player.opposite c = 0 ∧
      s2.occupied_squares.testBit
        (path_to_global s.current_player (mi.to_pos - 1) +
          playerOffset s.current_player.opposite) = false ∧
      (∀ pl' : FastPlayer, s2.get_score pl' = s.get_score pl') := by
  have mf := make_facts hwf hp h
  obtain ⟨hpi, hfrom, hs2, hextra, hdest, hval⟩ := make_move_some_elim h
  subst hs2
  rw [if_pos hT, hocc] at hval
  obtain ⟨-, -, hfind⟩ := hval
  have hsqB : path_to_global s.current_player (mi.to_pos - 1) < 20 :=
    path_to_global_lt_20 _ _ (by omega)
  have hbit := occupant_bit s _ _ hocc
  obtain ⟨i, hi7, hon⟩ := (hwf.agree _ _ hsqB).mp hbit
  obtain ⟨c, hfc, hc7, h1c, h14c, hpathc⟩ := find_captured_spec s _ _
    ⟨i, hi7, hon.1, hon.2.1, hon.2.2⟩
  have hcap : mi.captured_piece = some c := by rw [hfind, hfc]
  have hcap7 : ∀ c', mi.captured_piece = some c' → c' < 7 :=
    fun c' hc' => (mf.capfacts c' hc').1
  refine ⟨c, hc7, hcap, h1c, h14c, hpathc, ?_, ?_, ?_⟩
  · rw [apply_move_get s mi _ c hc7 mf.pk7 mf.to16 hcap7,
      if_neg (fun hh => FastPlayer.opposite_ne s.current_player hh.1)]
    simp only [hcap]
    simp
  · have hocc64 : s.occupied_squares < 2 ^ 64 := lt_trans hwf.occ_lt (by norm_num)
    have hiff := apply_move_occ_testBit s mi
      (path_to_global s.current_player (mi.to_pos - 1) +
        playerOffset s.current_player.opposite) hocc64 (capsq_of_movefacts s mi mf)
    rcases hb : (s.apply_move_internal s.current_player mi).occupied_squares.testBit
        (path_to_global s.current_player (mi.to_pos - 1) +
          playerOffset s.current_player.opposite) with _ | _
    · rfl
    · exfalso
      rcases hiff.mp hb with ⟨-, -, hnC⟩ | ⟨-, hjB⟩
      · exact hnC ⟨by simp [hcap], rfl⟩
      · rcases offset_dichotomy s with ⟨ho, hoo⟩ | ⟨ho, hoo⟩ <;>
          rw [ho, hoo] at hjB <;> omega
  · intro pl'
    have hsc : s.get_score s.current_player ≤ 6 :=
      score_le_6_of_piece_on_board s _ mi.piece_idx mf.pk7
        (hwf.score_finished _) (by rw [mf.pos_piece]; exact mf.from_le)
    rw [apply_move_get_score s mi pl' hsc,
      if_neg (fun hh => by have := hh.1; omega)]

theorem capture_resets_opponent_witness :
    WF (⟨2 ^ 0 + 2 ^ 27, 4 + 6 * 2 ^ 28, 0⟩ : FastGameState) ∧ (0 : Nat) < 7 ∧
    (⟨2 ^ 0 + 2 ^ 27, 4 + 6 * 2 ^ 28, 0⟩ : FastGameState).make_move 0 2 =
      some (⟨0, 4, 6, some 0, false⟩, (⟨128, 6, 64⟩ : FastGameState)) ∧
    (∃ c < 7, (⟨0, 4, 6, some 0, false⟩ : MoveInfo).captured_piece = some c ∧
      1 ≤ (⟨2 ^ 0 + 2 ^ 27, 4 + 6 * 2 ^ 28, 0⟩ : FastGameState).get_piece_pos
        (⟨2 ^ 0 + 2 ^ 27, 4 + 6 * 2 ^ 28, 0⟩ :
          FastGameState).current_player.opposite c ∧
      (⟨2 ^ 0 + 2 ^ 27, 4 + 6 * 2 ^ 28, 0⟩ : FastGameState).get_piece_pos
        (⟨2 ^ 0 + 2 ^ 27, 4 + 6 * 2 ^ 28, 0⟩ :
          FastGameState).current_player.opposite c ≤ 14 ∧
      path_to_global (⟨2 ^ 0 + 2 ^ 27, 4 + 6 * 2 ^ 28, 0⟩ :
          FastGameState).current_player.opposite
        ((⟨2 ^ 0 + 2 ^ 27, 4 + 6 * 2 ^ 28, 0⟩ : FastGameState).get_piece_pos
          (⟨2 ^ 0 + 2 ^ 27, 4 + 6 * 2 ^ 28, 0⟩ :
            FastGameState).current_player.opposite c - 1) =
        path_to_global (⟨2 ^ 0 + 2 ^ 27, 4 + 6 * 2 ^ 28, 0⟩ :
            FastGameState).current_player
          ((⟨0, 4, 6, some 0, false⟩ : MoveInfo).to_pos - 1) ∧
      (⟨128, 6, 64⟩ : FastGameState).get_piece_pos
        (⟨2 ^ 0 + 2 ^ 27, 4 + 6 * 2 ^ 28, 0⟩ :
          FastGameState).current_player.opposite c = 0 ∧
      (⟨128, 6, 64⟩ : FastGameState).occupied_squares.testBit
        (path_to_global (⟨2 ^ 0 + 2 ^ 27, 4 + 6 * 2 ^ 28, 0⟩ :
            FastGameState).current_player
          ((⟨0, 4, 6, some 0, false⟩ : MoveInfo).to_pos - 1) +
          playerOffset (⟨2 ^ 0 + 2 ^ 27, 4 + 6 * 2 ^ 28, 0⟩ :
            FastGameState).current_player.opposite) = false ∧
      (∀ pl' : FastPlayer, (⟨128, 6, 64⟩ : FastGameState).get_score pl' =
        (⟨2 ^ 0 + 2 ^ 27, 4 + 6 * 2 ^ 28, 0⟩ : FastGameState).get_score pl')) :=
  ⟨by decide, by decide, by decide,
   capture_resets_opponent ⟨2 ^ 0 + 2 ^ 27, 4 + 6 * 2 ^ 28, 0⟩ 0 2
     ⟨0, 4, 6, some 0, false⟩ ⟨128, 6, 64⟩ (by decide) (by decide) (by decide)
     (by decide) (by decide) (by decide)⟩

/-- C6: the effect record's extra-turn flag is true iff the destination is an
on-board rosette square, and the post-state's active player equals the mover iff
the flag is set (otherwise it is the opponent). -/
theorem extra_turn_rosette (s : FastGameState) (piece roll : Nat) (mi : MoveInfo)
    (s2 : FastGameState) (h : s.make_move piece roll = some (mi, s2)) :
    (mi.extra_turn = true ↔ ((1 ≤ mi.to_pos ∧ mi.to_pos ≤ 14) ∧
      is_rosette (path_to_global s.current_player (mi.to_pos - 1)) = true)) ∧
    s2.current_player =
      (if mi.extra_turn then s.current_player else s.current_player.opposite) ∧
    (s2.current_player = s.current_player ↔ mi.extra_turn = true) := by
  obtain ⟨-, -, hs2, hextra, -, -⟩ := make_move_some_elim h
  subst hs2
  refine ⟨?_, apply_move_current_player s mi, ?_⟩
  · rw [hextra]
    simp [Bool.and_eq_true, decide_eq_true_eq]
  · rw [apply_move_current_player s mi]
    cases he : mi.extra_turn <;>
      simp [he, FastPlayer.opposite_ne s.current_player]

theorem extra_turn_rosette_witness :
    FastGameState.new.make_move 0 1 =
      some (⟨0, 0, 1, none, false⟩, (⟨8, 1, 64⟩ : FastGameState)) ∧
    (((⟨0, 0, 1, none, false⟩ : MoveInfo).extra_turn = true ↔
      ((1 ≤ (⟨0, 0, 1, none, false⟩ : MoveInfo).to_pos ∧
        (⟨0, 0, 1, none, false⟩ : MoveInfo).to_pos ≤ 14) ∧
        is_rosette (path_to_global FastGameState.new.current_player
          ((⟨0, 0, 1, none, false⟩ : MoveInfo).to_pos - 1)) = true)) ∧
      (⟨8, 1, 64⟩ : FastGameState).current_player =
        (if (⟨0, 0, 1, none, false⟩ : MoveInfo).extra_turn then
          FastGameState.new.current_player
         else FastGameState.new.current_player.opposite) ∧
      ((⟨8, 1, 64⟩ : FastGameState).current_player =
          FastGameState.new.current_player ↔
        (⟨0, 0, 1, none, false⟩ : MoveInfo).extra_turn = true)) :=
  ⟨by decide, extra_turn_rosette FastGameState.new 0 1 ⟨0, 0, 1, none, false⟩
    ⟨8, 1, 64⟩ (by decide)⟩

/-- C10: `make_move` computes an off-board piece's destination as path index 0
(position code 1) without reading the roll: for any state whose active player
has an off-board piece with a free entry square, `make_move piece roll` is the
same for every roll — in particular roll 0 — and succeeds, placing the piece at
path index 0, even though `generate_moves` at roll 0 returns no moves at all. -/
theorem entry_ignores_roll (s : FastGameState) (piece : Nat) (hp : piece < 7)
    (h0 : s.get_piece_pos s.current_player piece = 0)
    (hfree : s.get_occupant (path_to_global s.current_player 0) = none) :
    (∀ roll : Nat, s.make_move piece roll = s.make_move piece 0) ∧
    (∃ mi s2, s.make_move piece 0 = some (mi, s2) ∧ mi.to_pos = 1 ∧
      s2.get_piece_pos s.current_player piece = 1) ∧
    s.generate_moves 0 = [] := by
  refine ⟨?_, ?_, rfl⟩
  · intro roll
    simp only [make_move]
    rw [if_pos h0, if_pos h0]
  · refine ⟨⟨piece, 0, 1, none, false⟩,
      s.apply_move_internal s.current_player ⟨piece, 0, 1, none, false⟩, ?_, rfl, ?_⟩
    · simp only [make_move]
      rw [if_pos h0]
      simp only []
      rw [if_pos (show (1 : Nat) ≤ 1 ∧ (1 : Nat) ≤ 14 by omega)]
      rw [show path_to_global s.current_player (1 - 1) =
        path_to_global s.current_player 0 from rfl, hfree]
      simp only []
      rw [h0]
      rw [show (decide ((1 : Nat) ≤ 1 ∧ (1 : Nat) ≤ 14) &&
        is_rosette (path_to_global s.current_player (1 - 1))) = false by
          simp [entry_not_rosette s.current_player]]
    · rw [apply_move_get s _ s.current_player piece hp hp (by norm_num)
        (fun c hc => by exact absurd hc (by simp)),
        if_pos ⟨rfl, rfl⟩]

theorem entry_ignores_roll_witness :
    (0 : Nat) < 7 ∧
    FastGameState.new.get_piece_pos FastGameState.new.current_player 0 = 0 ∧
    FastGameState.new.get_occupant
      (path_to_global FastGameState.new.current_player 0) = none ∧
    ((∀ roll : Nat, FastGameState.new.make_move 0 roll =
        FastGameState.new.make_move 0 0) ∧
      (∃ mi s2, FastGameState.new.make_move 0 0 = some (mi, s2) ∧ mi.to_pos = 1 ∧
        s2.get_piece_pos FastGameState.new.current_player 0 = 1) ∧
      FastGameState.new.generate_moves 0 = []) :=
  ⟨by decide, by decide, by decide,
   entry_ignores_roll FastGameState.new 0 (by decide) (by decide) (by decide)⟩

end FastGameState

/-- C4: in every state reachable from the initial state through
generator-validated `make_move` steps and `unmake_move` of just-made moves, every
global square has at most one occupant across both players, and the occupancy
bits agree with the position table: player `pl`'s bit for square `sq` is set iff
some piece of `pl` is on-board at a path index that maps to `sq`. -/
theorem reachable_occupancy_invariant (s : FastGameState) (hr : Reachable s) :
    (∀ sq < 20, ¬(s.occupied_squares.testBit sq = true ∧
      s.occupied_squares.testBit (sq + 20) = true)) ∧
    (∀ pl : FastPlayer, ∀ sq < 20,
      (s.occupied_squares.testBit (sq + playerOffset pl) = true ↔
        ∃ i < 7, 1 ≤ s.get_piece_pos pl i ∧ s.get_piece_pos pl i ≤ 14 ∧
          path_to_global pl (s.get_piece_pos pl i - 1) = sq)) :=
  ⟨hr.wf.one_per_square, hr.wf.agree⟩

theorem reachable_occupancy_invariant_witness :
    (∀ sq < 20, ¬(FastGameState.new.occupied_squares.testBit sq = true ∧
      FastGameState.new.occupied_squares.testBit (sq + 20) = true)) ∧
    (∀ pl : FastPlayer, ∀ sq < 20,
      (FastGameState.new.occupied_squares.testBit (sq + playerOffset pl) = true ↔
        ∃ i < 7, 1 ≤ FastGameState.new.get_piece_pos pl i ∧
          FastGameState.new.get_piece_pos pl i ≤ 14 ∧
          path_to_global pl (FastGameState.new.get_piece_pos pl i - 1) = sq)) :=
  reachable_occupancy_invariant FastGameState.new Reachable.init

namespace FastGameState

end FastGameState

/-! ### AI embedding (`ai.rs`, `ai_helpers.rs`)

`f64` arithmetic is idealized over `ℚ`; the stochastic rollout statistics and
the UCB1 values (which involve `ln`, `sqrt` and `+∞`) are abstracted as oracle
functions, keeping the control/selection structure of the source exact. -/

/-- `MoveStats` (ai.rs): visit count and accumulated reward. -/
structure MoveStats where
  visits : Nat
  wins : ℚ
deriving DecidableEq, Repr

/-- `f64::partial_cmp` on finite values, over the ℚ idealization. -/
def cmpF (a b : ℚ) : Ordering := if a < b then .lt else if b < a then .gt else .eq

/-- The fold inside Rust `Iterator::max_by(cmp)` starting from the first
element: the accumulator is kept only when it compares strictly greater, so on
ties the LATER element replaces it. -/
def maxByRustNe (cmp : Nat → Nat → Ordering) (x : Nat) (xs : List Nat) : Nat :=
  xs.foldl (fun acc y => if cmp acc y = .gt then acc else y) x

/-- Rust `Iterator::max_by(cmp)` (`None` on an empty iterator). -/
def maxByRust (cmp : Nat → Nat → Ordering) : List Nat → Option Nat
  | [] => none
  | x :: xs => some (maxByRustNe cmp x xs)

/-- Win rate used in the final pick of `choose_move_sequential` and
`choose_move_parallel`: `wins / visits`, `0.0` for unvisited moves. -/
def winRate (st : MoveStats) : ℚ :=
  if 0 < st.visits then st.wins / (st.visits : ℚ) else 0

/-- Final pick of `choose_move_sequential` (ai.rs:191-199) and of
`choose_move_parallel` (ai.rs:152-160): `max_by` over win rates; the rollout
statistics are abstracted as the oracle `stats`. -/
def choose_move_final_pick (stats : Nat → MoveStats) (moves : List Nat) :
    Option Nat :=
  maxByRust (fun a b => cmpF (winRate (stats a)) (winRate (stats b))) moves

/-- `select_move_ucb1_static` (ai.rs:210-228), with the UCB1 values
(`calculate_ucb1_static`) abstracted as a value oracle: the selection itself is
`max_by` with `partial_cmp`. -/
def select_move_ucb1_static (ucb1 : Nat → ℚ) (moves : List Nat) : Option Nat :=
  maxByRust (fun a b => cmpF (ucb1 a) (ucb1 b)) moves

/-- `MCTSAI::choose_move` facade (ai.rs:47-71): empty generator output → none;
singleton → that candidate; otherwise the parallel or sequential search, each
ending in the win-rate `max_by` pick over its (oracle) statistics. -/
def choose_move (simulations num_threads : Nat)
    (seqStats parStats : Nat → MoveStats) (s : FastGameState) (roll : Nat) :
    Option Nat :=
  match s.generate_moves roll with
  | [] => none
  | [m] => some m
  | m :: ms =>
    if 1 < num_threads ∧ num_threads * 10 ≤ simulations then
      some (maxByRustNe
        (fun a b => cmpF (winRate (parStats a)) (winRate (parStats b))) m ms)
    else
      some (maxByRustNe
        (fun a b => cmpF (winRate (seqStats a)) (winRate (seqStats b))) m ms)

/-- Per-worker simulation count in `choose_move_parallel` (ai.rs:100-110):
`simulations_per_thread` plus one extra for the first `extra_simulations`
workers. -/
def thread_simulations (simulations num_threads thread_id : Nat) : Nat :=
  if thread_id < simulations % num_threads then simulations / num_threads + 1
  else simulations / num_threads

/-- The worker ids spawned by `choose_move_parallel` (`for thread_id in
0..self.num_threads`). -/
def worker_ids (num_threads : Nat) : List Nat := List.range num_threads

/-- Per-piece score in `MCTSAI::choose_smart_piece` (ai.rs:346-389). -/
def smart_piece_score (s : FastGameState) (player : FastPlayer)
    (piece_idx roll : Nat) : ℚ :=
  let pos := s.get_piece_pos player piece_idx
  if pos = 0 then 10
  else if 1 ≤ pos ∧ pos ≤ 14 then
    let new_path_idx := pos - 1 + roll
    if 14 ≤ new_path_idx then 50
    else
      let base : ℚ := (new_path_idx : ℚ)
      let base2 : ℚ :=
        if is_rosette (path_to_global player new_path_idx) then base + 5 else base
      match s.get_occupant (path_to_global player new_path_idx) with
      | some occupant =>
        if occupant ≠ player ∧
            is_safe (path_to_global player new_path_idx) = false then
          base2 + 8
        else base2
      | none => base2
  else 0

/-- `evaluate_move_fast` (ai_helpers.rs:25-83).  Its capture-search loop over
the occupant's pieces is the same loop as `find_captured` (first on-board piece
of the occupant whose path square equals the target). -/
def evaluate_move_fast (s : FastGameState) (player : FastPlayer)
    (piece_idx roll : Nat) : ℚ :=
  let pos := s.get_piece_pos player piece_idx
  if pos = 0 then
    50 + (if is_rosette (path_to_global player 0) then 200 else 0)
  else if 1 ≤ pos ∧ pos ≤ 14 then
    let new_path_idx := pos - 1 + roll
    if 14 ≤ new_path_idx then
      1000 + (if s.get_score player = 6 then 10000 else 0)
    else
      let base : ℚ := (new_path_idx : ℚ) * 10
      let base2 : ℚ :=
        if is_rosette (path_to_global player new_path_idx) then base + 200 else base
      match s.get_occupant (path_to_global player new_path_idx) with
      | some occupant =>
        if occupant ≠ player ∧
            is_safe (path_to_global player new_path_idx) = false then
          base2 + (match find_captured s occupant
              (path_to_global player new_path_idx) with
            | some c => 150 + ((s.get_piece_pos occupant c - 1 : Nat) : ℚ) * 5
            | none => 0)
        else base2
      | none => base2
  else 0

/-- The `best_move`/`best_score` scan shared by `choose_smart_piece`
(ai.rs:347-388) and `choose_smart_move_fast` (ai_helpers.rs:10-23): strict
improvement (`score > best_score`) over a running best initialized to negative
infinity (modeled as `none`), so the FIRST maximal element wins. -/
def foldBest (f : Nat → ℚ) : List Nat → Nat → Option ℚ → Nat
  | [], best, _ => best
  | m :: ms, _, none => foldBest f ms m (some (f m))
  | m :: ms, best, some b =>
    if b < f m then foldBest f ms m (some (f m)) else foldBest f ms best (some b)

/-- `MCTSAI::choose_smart_piece` (ai.rs:346-389). -/
def choose_smart_piece (s : FastGameState) (player : FastPlayer)
    (moves : List Nat) (roll : Nat) : Nat :=
  foldBest (fun p => smart_piece_score s player p roll) moves (moves.headD 0) none

/-- `choose_smart_move_fast` (ai_helpers.rs:10-23). -/
def choose_smart_move_fast (s : FastGameState) (player : FastPlayer)
    (moves : List Nat) (roll : Nat) : Nat :=
  foldBest (fun p => evaluate_move_fast s player p roll) moves (moves.headD 0) none

theorem cmpF_eq_gt_iff (a b : ℚ) : cmpF a b = .gt ↔ b < a := by
  unfold cmpF
  by_cases h1 : a < b
  · simp [h1, lt_asymm h1]
  · by_cases h2 : b < a <;> simp [h1, h2]

theorem maxByRustNe_mem (cmp : Nat → Nat → Ordering) :
    ∀ (xs : List Nat) (x : Nat), maxByRustNe cmp x xs ∈ x :: xs := by
  intro xs
  induction xs with
  | nil =>
    intro x
    simp [maxByRustNe]
  | cons y ys ih =>
    intro x
    have hstep : maxByRustNe cmp x (y :: ys) =
        maxByRustNe cmp (if cmp x y = .gt then x else y) ys := rfl
    rw [hstep]
    by_cases h : cmp x y = .gt
    · rw [if_pos h]
      have := ih x
      simp at this ⊢
      tauto
    · rw [if_neg h]
      have := ih y
      simp at this ⊢
      tauto

/-- `max_by` with a `cmpF` comparator returns the LAST maximal element: the
candidate list splits as `l₁ ++ r :: l₂` with every score ≤ the winner's and
every score strictly after the winner strictly below it. -/
theorem foldl_maxBy_spec (f : Nat → ℚ) :
    ∀ (xs : List Nat) (x : Nat),
    ∃ l₁ l₂,
      x :: xs = l₁ ++ maxByRustNe (fun a b => cmpF (f a) (f b)) x xs :: l₂ ∧
      (∀ y ∈ x :: xs, f y ≤ f (maxByRustNe (fun a b => cmpF (f a) (f b)) x xs)) ∧
      (∀ y ∈ l₂, f y < f (maxByRustNe (fun a b => cmpF (f a) (f b)) x xs)) := by
  intro xs
  induction xs with
  | nil =>
    intro x
    refine ⟨[], [], rfl, ?_, by simp⟩
    intro y hy
    simp only [List.mem_singleton] at hy
    subst hy
    exact le_refl _
  | cons y ys ih =>
    intro x
    have hstep : maxByRustNe (fun a b => cmpF (f a) (f b)) x (y :: ys) =
        maxByRustNe (fun a b => cmpF (f a) (f b))
          (if cmpF (f x) (f y) = .gt then x else y) ys := rfl
    by_cases hgt : cmpF (f x) (f y) = Ordering.gt
    · have hyx : f y < f x := (cmpF_eq_gt_iff _ _).mp hgt
      obtain ⟨l₁, l₂, hdec, hmax, hstrict⟩ := ih x
      rw [hstep, if_pos hgt]
      cases l₁ with
      | nil =>
        simp only [List.nil_append] at hdec
        injection hdec with hr hl₂
        refine ⟨[], y :: ys, ?_, ?_, ?_⟩
        · simp only [List.nil_append]
          rw [← hr]
        · intro z hz
          rw [← hr]
          rcases List.mem_cons.mp hz with h | hz2
          · rw [h]
          rcases List.mem_cons.mp hz2 with h | hz3
          · rw [h]
            exact hyx.le
          · have := hmax z (List.mem_cons_of_mem x hz3)
            rw [← hr] at this
            exact this
        · intro z hz
          rw [← hr]
          rcases List.mem_cons.mp hz with h | hz2
          · rw [h]
            exact hyx
          · have := hstrict z (hl₂ ▸ hz2)
            rw [← hr] at this
            exact this
      | cons a l₁' =>
        injection hdec with ha hys
        refine ⟨x :: y :: l₁', l₂, ?_, ?_, hstrict⟩
        · exact congrArg (fun t => x :: y :: t) hys
        · intro z hz
          rcases List.mem_cons.mp hz with h | hz2
          · rw [h]
            exact hmax x (List.mem_cons_self _ _)
          rcases List.mem_cons.mp hz2 with h | hz3
          · rw [h]
            exact le_trans hyx.le (hmax x (List.mem_cons_self _ _))
          · exact hmax z (List.mem_cons_of_mem x hz3)
    · have hxy : f x ≤ f y := by
        by_contra hc
        exact hgt ((cmpF_eq_gt_iff _ _).mpr (lt_of_not_le hc))
      obtain ⟨l₁, l₂, hdec, hmax, hstrict⟩ := ih y
      rw [hstep, if_neg hgt]
      refine ⟨x :: l₁, l₂, ?_, ?_, hstrict⟩
      · simp only [List.cons_append]
        rw [← hdec]
      · intro z hz
        rcases List.mem_cons.mp hz with h | hz2
        · rw [h]
          exact le_trans hxy (hmax y (List.mem_cons_self _ _))
        · exact hmax z hz2

/-! ### Claim theorems: AI -/

/-- C3 counterexample: with two candidates whose statistics tie (exactly the
situation at the start of every search, when all visit counts are zero), the
final win-rate pick and the UCB1 selection both return the LAST candidate in
ascending order (piece 1), not the first (piece 0) as the claim states. -/
theorem tie_break_counterexample :
    choose_move_final_pick (fun _ => ⟨0, 0⟩) [0, 1] = some 1 ∧
    select_move_ucb1_static (fun _ => 0) [0, 1] = some 1 := by
  exact ⟨by decide, by decide⟩

/-- C3 (amended): in both `max_by`-based picks — the UCB1 selection among
candidates and the final pick of the candidate with the highest mean reward —
ties in the floating-point comparison are won by the LAST candidate in
ascending order: the returned candidate `r` splits the list as `l₁ ++ r :: l₂`
where every candidate scores ≤ `r` and every candidate after `r` scores
strictly below `r`. -/
theorem tie_break_last_maximal (ucb1 : Nat → ℚ) (stats : Nat → MoveStats)
    (moves : List Nat) (hne : moves ≠ []) :
    (∃ r l₁ l₂, select_move_ucb1_static ucb1 moves = some r ∧
      moves = l₁ ++ r :: l₂ ∧ (∀ y ∈ moves, ucb1 y ≤ ucb1 r) ∧
      (∀ y ∈ l₂, ucb1 y < ucb1 r)) ∧
    (∃ r l₁ l₂, choose_move_final_pick stats moves = some r ∧
      moves = l₁ ++ r :: l₂ ∧
      (∀ y ∈ moves, winRate (stats y) ≤ winRate (stats r)) ∧
      (∀ y ∈ l₂, winRate (stats y) < winRate (stats r))) := by
  obtain ⟨x, xs, rfl⟩ := List.exists_cons_of_ne_nil hne
  constructor
  · obtain ⟨l₁, l₂, hdec, hmax, hstrict⟩ := foldl_maxBy_spec ucb1 xs x
    exact ⟨_, l₁, l₂, rfl, hdec, hmax, hstrict⟩
  · obtain ⟨l₁, l₂, hdec, hmax, hstrict⟩ :=
      foldl_maxBy_spec (fun m => winRate (stats m)) xs x
    exact ⟨_, l₁, l₂, rfl, hdec, hmax, hstrict⟩

theorem tie_break_last_maximal_witness :
    ([0, 1] : List Nat) ≠ [] ∧
    ((∃ r l₁ l₂, select_move_ucb1_static (fun _ => (0 : ℚ)) [0, 1] = some r ∧
      ([0, 1] : List Nat) = l₁ ++ r :: l₂ ∧
      (∀ y ∈ ([0, 1] : List Nat), (0 : ℚ) ≤ 0) ∧
      (∀ y ∈ l₂, (0 : ℚ) < 0)) ∧
    (∃ r l₁ l₂, choose_move_final_pick (fun _ => ⟨0, 0⟩) [0, 1] = some r ∧
      ([0, 1] : List Nat) = l₁ ++ r :: l₂ ∧
      (∀ y ∈ ([0, 1] : List Nat),
        winRate ⟨0, 0⟩ ≤ winRate ⟨0, 0⟩) ∧
      (∀ y ∈ l₂, winRate ⟨0, 0⟩ < winRate ⟨0, 0⟩))) :=
  ⟨by decide, tie_break_last_maximal (fun _ => 0) (fun _ => ⟨0, 0⟩) [0, 1]
    (by decide)⟩

/-- C7: the `choose_move` facade returns none iff the generator yields no legal
move; when the generator yields exactly one candidate that candidate is
returned directly (no search is involved in that branch); and any returned
candidate is a member of the generated candidate set. -/
theorem choose_move_facade (simulations num_threads : Nat)
    (seqStats parStats : Nat → MoveStats) (s : FastGameState) (roll : Nat) :
    (choose_move simulations num_threads seqStats parStats s roll = none ↔
      s.generate_moves roll = []) ∧
    (∀ m, s.generate_moves roll = [m] →
      choose_move simulations num_threads seqStats parStats s roll = some m) ∧
    (∀ r, choose_move simulations num_threads seqStats parStats s roll = some r →
      r ∈ s.generate_moves roll) := by
  rcases hg : s.generate_moves roll with _ | ⟨m, ms⟩
  · refine ⟨?_, ?_, ?_⟩
    · simp [choose_move, hg]
    · intro m hm
      exact absurd hm (by simp)
    · intro r hr
      simp [choose_move, hg] at hr
  · rcases ms with _ | ⟨m2, ms'⟩
    · refine ⟨?_, ?_, ?_⟩
      · simp [choose_move, hg]
      · intro m' hm'
        obtain rfl : m = m' := by simpa using hm'
        simp [choose_move, hg]
      · intro r hr
        simp only [choose_move, hg] at hr
        rw [Option.some.injEq] at hr
        subst hr
        exact List.mem_singleton_self _
    · refine ⟨?_, ?_, ?_⟩
      · constructor
        · intro hnone
          exfalso
          simp only [choose_move, hg] at hnone
          split_ifs at hnone <;> simp at hnone
        · intro habs
          exact absurd habs (by simp)
      · intro m' hm'
        exact absurd hm' (by simp)
      · intro r hr
        simp only [choose_move, hg] at hr
        split_ifs at hr <;>
          (rw [Option.some.injEq] at hr; subst hr;
           exact maxByRustNe_mem _ (m2 :: ms') m)

theorem choose_move_facade_witness :
    ((choose_move 100 1 (fun _ => ⟨0, 0⟩) (fun _ => ⟨0, 0⟩)
        FastGameState.new 1 = none ↔
      FastGameState.new.generate_moves 1 = []) ∧
    (∀ m, FastGameState.new.generate_moves 1 = [m] →
      choose_move 100 1 (fun _ => ⟨0, 0⟩) (fun _ => ⟨0, 0⟩)
        FastGameState.new 1 = some m) ∧
    (∀ r, choose_move 100 1 (fun _ => ⟨0, 0⟩) (fun _ => ⟨0, 0⟩)
        FastGameState.new 1 = some r →
      r ∈ FastGameState.new.generate_moves 1)) :=
  choose_move_facade 100 1 (fun _ => ⟨0, 0⟩) (fun _ => ⟨0, 0⟩)
    FastGameState.new 1

theorem sum_if_lt_range (q r : Nat) :
    ∀ n, ((List.range n).map (fun i => if i < r then q + 1 else q)).sum =
      n * q + min r n := by
  intro n
  induction n with
  | zero => simp
  | succ n ih =>
    rw [List.range_succ, List.map_append, List.sum_append]
    simp only [List.map_cons, List.map_nil, List.sum_cons, List.sum_nil, ih]
    rw [Nat.succ_mul]
    by_cases h : n < r <;> simp only [h, if_true, if_false] <;> omega

/-- C9: the parallel search spawns exactly `num_threads` workers, the rollout
budget splits as floor plus one extra for the first `budget mod num_threads`
workers, every pair of shares differs by at most 1, and the shares sum to the
configured budget. -/
theorem parallel_split (simulations num_threads : Nat) (ht : 0 < num_threads) :
    (worker_ids num_threads).length = num_threads ∧
    ((worker_ids num_threads).map
      (thread_simulations simulations num_threads)).sum = simulations ∧
    (∀ i < num_threads, ∀ j < num_threads,
      thread_simulations simulations num_threads i ≤
        thread_simulations simulations num_threads j + 1) := by
  refine ⟨List.length_range _, ?_, ?_⟩
  · unfold worker_ids thread_simulations
    rw [sum_if_lt_range (simulations / num_threads) (simulations % num_threads)
      num_threads]
    have h1 := Nat.div_add_mod simulations num_threads
    have h2 : simulations % num_threads < num_threads :=
      Nat.mod_lt _ ht
    omega
  · intro i hi j hj
    unfold thread_simulations
    split_ifs <;> omega

theorem parallel_split_witness :
    (0 : Nat) < 4 ∧
    ((worker_ids 4).length = 4 ∧
      ((worker_ids 4).map (thread_simulations 10 4)).sum = 10 ∧
      (∀ i < 4, ∀ j < 4,
        thread_simulations 10 4 i ≤ thread_simulations 10 4 j + 1)) :=
  ⟨by decide, parallel_split 10 4 (by decide)⟩

/-- C8 counterexample: in the well-formed state with the mover's piece 1 on
board (position code 6) and piece 0 off-board, with roll 1 the rollout
heuristic `choose_smart_piece` picks piece 0 (scores 10 vs 6) while the
standalone evaluator `choose_smart_move_fast` picks piece 1 (scores 50 vs 60):
the two one-ply choosers are NOT the same function and disagree here. -/
theorem heuristic_divergence_counterexample :
    choose_smart_piece ⟨128, 96, 0⟩ .One [0, 1] 1 = 0 ∧
    choose_smart_move_fast ⟨128, 96, 0⟩ .One [0, 1] 1 = 1 ∧
    smart_piece_score ⟨128, 96, 0⟩ .One 0 1 = 10 ∧
    smart_piece_score ⟨128, 96, 0⟩ .One 1 1 = 6 ∧
    evaluate_move_fast ⟨128, 96, 0⟩ .One 0 1 = 50 ∧
    evaluate_move_fast ⟨128, 96, 0⟩ .One 1 1 = 60 := by
  have hp0 : (⟨128, 96, 0⟩ : FastGameState).get_piece_pos .One 0 = 0 := by decide
  have hp1 : (⟨128, 96, 0⟩ : FastGameState).get_piece_pos .One 1 = 6 := by decide
  have hocc : (⟨128, 96, 0⟩ : FastGameState).get_occupant
      (path_to_global .One 6) = none := by decide
  have hros6 : is_rosette (path_to_global .One 6) = false := by decide
  have hros0 : is_rosette (path_to_global .One 0) = false := by decide
  have hs0 : smart_piece_score ⟨128, 96, 0⟩ .One 0 1 = 10 := by
    simp [smart_piece_score, hp0]
  have hs1 : smart_piece_score ⟨128, 96, 0⟩ .One 1 1 = 6 := by
    norm_num [smart_piece_score, hp1, hocc, hros6]
  have he0 : evaluate_move_fast ⟨128, 96, 0⟩ .One 0 1 = 50 := by
    norm_num [evaluate_move_fast, hp0, hros0]
  have he1 : evaluate_move_fast ⟨128, 96, 0⟩ .One 1 1 = 60 := by
    norm_num [evaluate_move_fast, hp1, hocc, hros6]
  refine ⟨?_, ?_, hs0, hs1, he0, he1⟩
  · norm_num [choose_smart_piece, foldBest, hs0, hs1]
  · norm_num [choose_smart_move_fast, foldBest, he0, he1]

/-- C8 (amended): the two one-ply evaluators differ on captures: on a capturing
non-finishing on-board move, the rollout heuristic (`choose_smart_piece`) adds
a FLAT capture bonus of 8, while the standalone evaluator
(`evaluate_move_fast`) adds 150 + 5·(captured piece's position − 1), scaled by
the captured piece's advancement.  (Hence the two choosers can pick different
pieces, see the counterexample.) -/
theorem capture_bonus_formulas (s : FastGameState) (player X : FastPlayer)
    (piece roll c : Nat)
    (h1 : 1 ≤ s.get_piece_pos player piece)
    (h14 : s.get_piece_pos player piece ≤ 14)
    (hnf : s.get_piece_pos player piece - 1 + roll < 14)
    (hocc : s.get_occupant
      (path_to_global player (s.get_piece_pos player piece - 1 + roll)) = some X)
    (hX : X ≠ player)
    (hsafe : is_safe
      (path_to_global player (s.get_piece_pos player piece - 1 + roll)) = false)
    (hfind : find_captured s X
      (path_to_global player (s.get_piece_pos player piece - 1 + roll)) = some c) :
    smart_piece_score s player piece roll =
      ((s.get_piece_pos player piece - 1 + roll : Nat) : ℚ) +
        (if is_rosette (path_to_global player
          (s.get_piece_pos player piece - 1 + roll)) then 5 else 0) + 8 ∧
    evaluate_move_fast s player piece roll =
      ((s.get_piece_pos player piece - 1 + roll : Nat) : ℚ) * 10 +
        (if is_rosette (path_to_global player
          (s.get_piece_pos player piece - 1 + roll)) then 200 else 0) +
        (150 + ((s.get_piece_pos X c - 1 : Nat) : ℚ) * 5) := by
  constructor
  · simp only [smart_piece_score]
    rw [if_neg (by omega : ¬s.get_piece_pos player piece = 0), if_pos ⟨h1, h14⟩,
      if_neg (by omega : ¬14 ≤ s.get_piece_pos player piece - 1 + roll)]
    simp only [hocc]
    rw [if_pos ⟨hX, hsafe⟩]
    by_cases hros : is_rosette (path_to_global player
        (s.get_piece_pos player piece - 1 + roll)) = true
    · rw [if_pos hros, if_pos hros]
    · rw [if_neg hros, if_neg hros]
      ring
  · simp only [evaluate_move_fast]
    rw [if_neg (by omega : ¬s.get_piece_pos player piece = 0), if_pos ⟨h1, h14⟩,
      if_neg (by omega : ¬14 ≤ s.get_piece_pos player piece - 1 + roll)]
    simp only [hocc]
    rw [if_pos ⟨hX, hsafe⟩]
    simp only [hfind]
    by_cases hros : is_rosette (path_to_global player
        (s.get_piece_pos player piece - 1 + roll)) = true
    · rw [if_pos hros, if_pos hros]
    · rw [if_neg hros, if_neg hros]
      ring

theorem capture_bonus_formulas_witness :
    (1 ≤ (⟨2 ^ 0 + 2 ^ 27, 4 + 6 * 2 ^ 28, 0⟩ : FastGameState).get_piece_pos
      .One 0 ∧
    (⟨2 ^ 0 + 2 ^ 27, 4 + 6 * 2 ^ 28, 0⟩ : FastGameState).get_piece_pos
      .One 0 ≤ 14 ∧
    (⟨2 ^ 0 + 2 ^ 27, 4 + 6 * 2 ^ 28, 0⟩ : FastGameState).get_piece_pos
      .One 0 - 1 + 2 < 14) ∧
    (smart_piece_score ⟨2 ^ 0 + 2 ^ 27, 4 + 6 * 2 ^ 28, 0⟩ .One 0 2 =
      ((((⟨2 ^ 0 + 2 ^ 27, 4 + 6 * 2 ^ 28, 0⟩ : FastGameState).get_piece_pos
        .One 0 - 1 + 2 : Nat)) : ℚ) +
        (if is_rosette (path_to_global .One
          ((⟨2 ^ 0 + 2 ^ 27, 4 + 6 * 2 ^ 28, 0⟩ : FastGameState).get_piece_pos
            .One 0 - 1 + 2)) then 5 else 0) + 8 ∧
    evaluate_move_fast ⟨2 ^ 0 + 2 ^ 27, 4 + 6 * 2 ^ 28, 0⟩ .One 0 2 =
      ((((⟨2 ^ 0 + 2 ^ 27, 4 + 6 * 2 ^ 28, 0⟩ : FastGameState).get_piece_pos
        .One 0 - 1 + 2 : Nat)) : ℚ) * 10 +
        (if is_rosette (path_to_global .One
          ((⟨2 ^ 0 + 2 ^ 27, 4 + 6 * 2 ^ 28, 0⟩ : FastGameState).get_piece_pos
            .One 0 - 1 + 2)) then 200 else 0) +
        (150 + ((((⟨2 ^ 0 + 2 ^ 27, 4 + 6 * 2 ^ 28, 0⟩ :
          FastGameState).get_piece_pos .Two 0 - 1 : Nat)) : ℚ) * 5)) :=
  ⟨⟨by decide, by decide, by decide⟩,
   capture_bonus_formulas ⟨2 ^ 0 + 2 ^ 27, 4 + 6 * 2 ^ 28, 0⟩ .One .Two 0 2 0
     (by decide) (by decide) (by decide) (by decide) (by decide) (by decide)
     (by decide)⟩

end Ur
